import Mathlib

/-!
Verification development for the Genetic-Algorithm repository (a GA fitting a
linear model to a dataset by minimizing mean squared error).

The Python source is embedded shallowly:

* numpy arrays become `List ℚ` / `List (List ℚ)` (machine floats are modelled
  as exact rationals; no claim below depends on floating-point rounding),
* the global numpy RNG (`np.random`) becomes an explicit state `S` threaded
  through every operator, with the numpy primitives (`rand`, `randint`,
  `choice`) supplied by an `RNGModel` whose documented numpy guarantees are
  stated as the `RNGValid` predicate,
* fallible numpy calls (`np.random.choice` with `replace=False` and a sample
  larger than the pool; indexing past the end of an array) become `Except`.

Definitions keep the source names (`fitness_function`, `create_population`,
`selection_roulette`, ...) and are translated line by line from
`genetic_functions.py`, `genetic_algorithm/experiment.py` and
`genetic_algorithm/result.py`.
-/

/-- A population / dataset row is a vector of rationals; a population or a
dataset is a list of rows (numpy 2-D arrays are rectangular; rectangularity
is carried as a hypothesis where a statement needs it). -/
abbrev Row : Type := List ℚ

/-- A 2-D numeric array (population or dataset matrix). -/
abbrev Matrix2 : Type := List Row

/-- Model of `np.argmin` on a 1-D array: the index of the first occurrence of
the minimum value.  (numpy raises on an empty array; this total model returns
0 there, and every use below is guarded by a nonemptiness hypothesis.) -/
def npArgmin : List ℚ → ℕ
  | [] => 0
  | [_] => 0
  | x :: y :: ys =>
    let j := npArgmin (y :: ys)
    if x ≤ (y :: ys).getD j 0 then 0 else j + 1

/-- Model of `np.min` on a 1-D array (numpy raises on an empty array; this
total model returns 0 there, and every use below has a nonempty argument). -/
def npMin : List ℚ → ℚ
  | [] => 0
  | x :: xs => xs.foldl min x

/-- Model of `np.mean` on a 1-D array: sum divided by length (in ℚ the empty
case yields 0/0 = 0; numpy would return NaN, and every use below has a
nonempty argument). -/
def npMean (l : List ℚ) : ℚ := l.sum / l.length

/-- Model of `np.dot` on two 1-D arrays of the same length. -/
def npDot (a b : List ℚ) : ℚ := (List.zipWith (fun x y => x * y) a b).sum

/-- `fitness_function(data, population)` from `genetic_functions.py`:
for each individual `w`, predictions are `w[0] + data[:, :-1] @ w[1:]` and the
fitness is the mean over rows of the squared residual
`(data[:, -1] - prediction) ** 2`. -/
def fitness_function (data : Matrix2) (population : Matrix2) : List ℚ :=
  population.map (fun individual =>
    npMean (data.map (fun row =>
      (row.getLastD 0 - (individual.headD 0 + npDot row.dropLast individual.tail)) ^ 2)))

/-- Errors raised by numpy inside the engine: `ValueError` from
`np.random.choice` when asked for more distinct samples than the pool holds
(`samplingError`), and `IndexError` from indexing one past the end of the
progenitor array in two-point crossover on an odd row count (`indexError`). -/
inductive GAError : Type
  | samplingError : GAError
  | indexError : GAError
deriving DecidableEq

/-- The numpy global random generator, abstracted: a state type `S`, the
seeding map (`np.random.seed`), and the three primitives the engine draws
from.  `choice pool size p s` models `np.random.choice(pool, size=size,
replace=False, p=p)` (`p = none` is the uniform distribution); its numpy
guarantees are stated separately in `RNGValid`. -/
structure RNGModel (S : Type) where
  seedState : Int → S
  rand : S → ℚ × S
  randint : ℕ → ℕ → S → ℕ × S
  choice : List ℕ → ℕ → Option (List ℚ) → S → List ℕ × S

/-- The documented guarantees of the numpy primitives: `rand` draws in
`[0, 1)`; `randint lo hi` draws in `[lo, hi)` when the range is nonempty;
`choice pool size _` with `size ≤ pool.length` (the only case reachable
below, see `npChoice`) returns exactly `size` elements of the pool, with no
pool position repeated (hence no repeated value when the pool has no
duplicates). -/
structure RNGValid {S : Type} (m : RNGModel S) : Prop where
  rand_nonneg : ∀ s, 0 ≤ (m.rand s).1
  rand_lt_one : ∀ s, (m.rand s).1 < 1
  randint_le : ∀ lo hi s, lo < hi → lo ≤ (m.randint lo hi s).1
  randint_lt : ∀ lo hi s, lo < hi → (m.randint lo hi s).1 < hi
  choice_length : ∀ pool size p s, size ≤ pool.length → ((m.choice pool size p s).1).length = size
  choice_mem : ∀ pool size p s, ∀ x ∈ (m.choice pool size p s).1, x ∈ pool
  choice_nodup : ∀ pool size p s, pool.Nodup → ((m.choice pool size p s).1).Nodup

/-- `np.random.choice(pool, size=size, replace=False, p=p)` including its
fallible part: numpy raises `ValueError: Cannot take a larger sample than
population when replace=False` when `size > len(pool)`. -/
def npChoice {S : Type} (m : RNGModel S) (pool : List ℕ) (size : ℕ)
    (p : Option (List ℚ)) (s : S) : Except GAError (List ℕ × S) :=
  if size ≤ pool.length then .ok (m.choice pool size p s) else .error .samplingError

/-- `k` consecutive draws of `np.random.rand()` (row-major flattening of
`np.random.rand(*shape)`). -/
def npRandList {S : Type} (m : RNGModel S) : ℕ → S → List ℚ × S
  | 0, s => ([], s)
  | k + 1, s =>
    let x := (m.rand s).1
    let rest := npRandList m k (m.rand s).2
    (x :: rest.1, rest.2)

/-- `np.random.rand(rows, cols)`: `rows*cols` consecutive uniform draws laid
out in row-major (C) order. -/
def npRandMatrix {S : Type} (m : RNGModel S) (rows cols : ℕ) (s : S) : Matrix2 × S :=
  let flat := (npRandList m (rows * cols) s).1
  ((List.range rows).map (fun i => (List.range cols).map (fun j => flat.getD (i * cols + j) 0)),
   (npRandList m (rows * cols) s).2)

/-- `np.random.randint(lo, hi, size=k)`: `k` consecutive integer draws. -/
def npRandintList {S : Type} (m : RNGModel S) (lo hi : ℕ) : ℕ → S → List ℕ × S
  | 0, s => ([], s)
  | k + 1, s =>
    let x := (m.randint lo hi s).1
    let rest := npRandintList m lo hi k (m.randint lo hi s).2
    (x :: rest.1, rest.2)

/-- `create_population(data, individuals)` from `genetic_functions.py`:
`np.random.rand(individuals, data.shape[1])`. -/
def create_population {S : Type} (m : RNGModel S) (data : Matrix2) (individuals : ℕ)
    (s : S) : Matrix2 × S :=
  npRandMatrix m individuals (data.headD []).length s

/-- The position, within one tournament's sampled index list, of its winner:
`best = np.argmin(fitnesses[indexes])` from both tournament selection
variants in `genetic_functions.py`. -/
def tournamentBest (fitnesses : List ℚ) (indexes : List ℕ) : ℕ :=
  npArgmin (indexes.map (fun ix => fitnesses.getD ix 0))

/-- One tournament's winner: `fighters = population[indexes]` followed by
`fighters[best]`, shared by both tournament selection variants. -/
def tournamentRound (population : Matrix2) (fitnesses : List ℚ) (indexes : List ℕ) : Row :=
  (indexes.map (fun ix => population.getD ix [])).getD (tournamentBest fitnesses indexes) []

/-- `_selection_roulette(data, population, individuals, k_group)` from
`genetic_functions.py`: selection weights `1 / fitness`, normalized by their
sum, then `individuals` distinct indices drawn by
`np.random.choice(population.shape[0], size=individuals, replace=False,
p=chances)` and the corresponding rows returned.  (`k_group` is an unused
parameter in the source as well.  In ℚ the reciprocal of a zero fitness is 0
rather than numpy's `inf`; every claim about this function assumes strictly
positive fitnesses, where the model and numpy agree.) -/
def selection_roulette {S : Type} (m : RNGModel S) (data : Matrix2) (population : Matrix2)
    (individuals : ℕ) (k_group : ℕ) (s : S) : Except GAError (Matrix2 × S) :=
  let fitnesses := (fitness_function data population).map (fun f => 1 / f)
  let chances := fitnesses.map (fun f => f / fitnesses.sum)
  match npChoice m (List.range population.length) individuals (some chances) s with
  | .error e => .error e
  | .ok (indexes, s') => .ok (indexes.map (fun i => population.getD i []), s')

/-- The `for i in range(individuals)` loop of
`_selection_tournament_replacement`: each round draws `k_group` distinct
indices from the whole population and appends the tournament winner. -/
def tournReplGo {S : Type} (m : RNGModel S) (population : Matrix2) (fitnesses : List ℚ)
    (k_group : ℕ) : ℕ → S → Except GAError (Matrix2 × S)
  | 0, s => .ok ([], s)
  | n + 1, s =>
    match npChoice m (List.range population.length) k_group none s with
    | .error e => .error e
    | .ok (indexes, s') =>
      match tournReplGo m population fitnesses k_group n s' with
      | .error e => .error e
      | .ok (rest, s'') => .ok (tournamentRound population fitnesses indexes :: rest, s'')

/-- `_selection_tournament_replacement(data, population, individuals,
k_group)` from `genetic_functions.py`. -/
def selection_tournament_replacement {S : Type} (m : RNGModel S) (data : Matrix2)
    (population : Matrix2) (individuals : ℕ) (k_group : ℕ) (s : S) :
    Except GAError (Matrix2 × S) :=
  tournReplGo m population (fitness_function data population) k_group individuals s

/-- The `for i in range(individuals)` loop of
`_selection_tournament_no_replacement`: each round samples
`size = min(k_group, len(available))` indices from the `available` pool,
appends the tournament winner, and then executes
`available = np.delete(available, best)` — note that `best` is the winner's
position inside the sampled `indexes` array, so the element removed from
`available` is the one at that *position*, which need not be the winner's
index (this faithfully reproduces the source). -/
def tournNoReplGo {S : Type} (m : RNGModel S) (population : Matrix2) (fitnesses : List ℚ)
    (k_group : ℕ) : ℕ → List ℕ → S → Except GAError (Matrix2 × S)
  | 0, _, s => .ok ([], s)
  | n + 1, available, s =>
    let size := if k_group < available.length then k_group else available.length
    match npChoice m available size none s with
    | .error e => .error e
    | .ok (indexes, s') =>
      let best := tournamentBest fitnesses indexes
      match tournNoReplGo m population fitnesses k_group n (available.eraseIdx best) s' with
      | .error e => .error e
      | .ok (rest, s'') => .ok (tournamentRound population fitnesses indexes :: rest, s'')

/-- `_selection_tournament_no_replacement(data, population, individuals,
k_group)` from `genetic_functions.py`, starting from the pool
`available = np.arange(population.shape[0])`. -/
def selection_tournament_no_replacement {S : Type} (m : RNGModel S) (data : Matrix2)
    (population : Matrix2) (individuals : ℕ) (k_group : ℕ) (s : S) :
    Except GAError (Matrix2 × S) :=
  tournNoReplGo m population (fitness_function data population) k_group individuals
    (List.range population.length) s

/-- The recursion over consecutive pairs behind `_single_point` in
`genetic_functions.py`.  `cols` is `progenitors.shape[1]`.  The loop bound
`end` is rounded down to an even number, so an odd trailing row is copied
untouched and consumes no randomness.  For a crossed pair the source executes
`child_1[c:] = progenitors[i+1, c:]` (and the mirror swap), i.e.
`take c ++ drop c` splicing. -/
def singlePointGo {S : Type} (m : RNGModel S) (cols : ℕ) :
    Matrix2 → ℚ → S → Matrix2 × S
  | [], _, s => ([], s)
  | [a], _, s => ([a], s)
  | a :: b :: rest, p, s =>
    let r := (m.rand s).1
    let s1 := (m.rand s).2
    if r < p then
      let c := (m.randint 0 cols s1).1
      let s2 := (m.randint 0 cols s1).2
      let child1 := a.take c ++ b.drop c
      let child2 := b.take c ++ a.drop c
      let restOut := singlePointGo m cols rest p s2
      (child1 :: child2 :: restOut.1, restOut.2)
    else
      let restOut := singlePointGo m cols rest p s1
      (a :: b :: restOut.1, restOut.2)

/-- `_single_point(progenitors, crossover_probability)` from
`genetic_functions.py`. -/
def crossover_single_point {S : Type} (m : RNGModel S) (progenitors : Matrix2)
    (crossover_probability : ℚ) (s : S) : Matrix2 × S :=
  singlePointGo m (progenitors.headD []).length progenitors crossover_probability s

/-- The recursion over consecutive pairs behind `_two_points` in
`genetic_functions.py`.  Unlike `_single_point` the loop `range(0,
progenitors.shape[0], 2)` has no even guard: on an odd row count the last
iteration draws its probability and, when it fires, `progenitors[i + 1]`
raises `IndexError` (modelled as `.error .indexError`).  A crossed pair swaps
the gene segment `[c1, c2)` where `c1 = randint(0, cols)` and
`c2 = randint(c1, cols)`. -/
def twoPointsGo {S : Type} (m : RNGModel S) (cols : ℕ) :
    Matrix2 → ℚ → S → Except GAError (Matrix2 × S)
  | [], _, s => .ok ([], s)
  | [a], p, s =>
    let r := (m.rand s).1
    if r < p then .error .indexError else .ok ([a], (m.rand s).2)
  | a :: b :: rest, p, s =>
    let r := (m.rand s).1
    let s1 := (m.rand s).2
    if r < p then
      let c1 := (m.randint 0 cols s1).1
      let s2 := (m.randint 0 cols s1).2
      let c2 := (m.randint c1 cols s2).1
      let s3 := (m.randint c1 cols s2).2
      let child1 := a.take c1 ++ ((b.drop c1).take (c2 - c1) ++ a.drop c2)
      let child2 := b.take c1 ++ ((a.drop c1).take (c2 - c1) ++ b.drop c2)
      match twoPointsGo m cols rest p s3 with
      | .error e => .error e
      | .ok (restOut, s4) => .ok (child1 :: child2 :: restOut, s4)
    else
      match twoPointsGo m cols rest p s1 with
      | .error e => .error e
      | .ok (restOut, s2) => .ok (a :: b :: restOut, s2)

/-- `_two_points(progenitors, crossover_probability)` from
`genetic_functions.py`. -/
def crossover_two_points {S : Type} (m : RNGModel S) (progenitors : Matrix2)
    (crossover_probability : ℚ) (s : S) : Except GAError (Matrix2 × S) :=
  twoPointsGo m (progenitors.headD []).length progenitors crossover_probability s

/-- `_uniform(population, mutation_probability)` from `genetic_functions.py`:
`np.where(np.random.rand(*shape) < p, np.random.rand(*shape), population)` —
a full mask matrix is drawn, then a full replacement matrix, and each gene
whose mask entry is below `p` is replaced by the corresponding fresh draw. -/
def mutation_uniform {S : Type} (m : RNGModel S) (population : Matrix2)
    (mutation_probability : ℚ) (s : S) : Matrix2 × S :=
  let rows := population.length
  let cols := (population.headD []).length
  let mask := (npRandMatrix m rows cols s).1
  let s1 := (npRandMatrix m rows cols s).2
  let fresh := (npRandMatrix m rows cols s1).1
  (population.mapIdx (fun i row => row.mapIdx (fun j x =>
    if (mask.getD i []).getD j 0 < mutation_probability then (fresh.getD i []).getD j 0 else x)),
   (npRandMatrix m rows cols s1).2)

/-- Number of `true` entries of `mask` strictly before row-major position
`(i, j)`: the rank of `(i, j)` in the `np.where(mutated_indexes)` ordering. -/
def maskCountBefore (mask : List (List Bool)) (i j : ℕ) : ℕ :=
  ((mask.take i).map (fun r => r.countP (fun b => b))).sum
    + ((mask.getD i []).take j).countP (fun b => b)

/-- `_non_uniform(population, mutation_probability)` from
`genetic_functions.py`: a mask matrix is drawn; for the `num_mutations`
masked positions (row-major, the `np.where` order) two index vectors
`other_i = randint(0, rows, size=num)` and `other_j = randint(0, cols,
size=num)` are drawn, and the k-th masked gene is replaced by the mean of its
own value and the donor gene `population[other_i[k], other_j[k]]`. -/
def mutation_non_uniform {S : Type} (m : RNGModel S) (population : Matrix2)
    (mutation_probability : ℚ) (s : S) : Matrix2 × S :=
  let rows := population.length
  let cols := (population.headD []).length
  let draws := (npRandMatrix m rows cols s).1
  let s1 := (npRandMatrix m rows cols s).2
  let mask := draws.map (fun r => r.map (fun d => decide (d < mutation_probability)))
  let num := (mask.map (fun r => r.countP (fun b => b))).sum
  let oi := (npRandintList m 0 rows num s1).1
  let s2 := (npRandintList m 0 rows num s1).2
  let oj := (npRandintList m 0 cols num s2).1
  let s3 := (npRandintList m 0 cols num s2).2
  (population.mapIdx (fun i row => row.mapIdx (fun j x =>
    if (mask.getD i []).getD j false then
      let k := maskCountBefore mask i j
      (x + (population.getD (oi.getD k 0) []).getD (oj.getD k 0) 0) / 2
    else x)),
   s3)

/-- The closed set of progenitor selection operators offered by
`ProgenitorSelectionFunction.get_functions` / `from_string`. -/
inductive SelectionOp : Type
  | roulette : SelectionOp
  | tournament_with_replacement : SelectionOp
  | tournament_without_replacement : SelectionOp
deriving DecidableEq

/-- The display name paired with each selection operator
(`NamedFunction.name`, used for `str()` and hence for identity hashing). -/
def SelectionOp.name : SelectionOp → String
  | .roulette => "Roulette"
  | .tournament_with_replacement => "Tournament with replacement"
  | .tournament_without_replacement => "Tournament without replacement"

/-- Dispatch of a selection descriptor to its implementation
(`NamedFunction.__call__`). -/
def SelectionOp.apply {S : Type} (op : SelectionOp) (m : RNGModel S) (data : Matrix2)
    (population : Matrix2) (individuals : ℕ) (k_group : ℕ) (s : S) :
    Except GAError (Matrix2 × S) :=
  match op with
  | .roulette => selection_roulette m data population individuals k_group s
  | .tournament_with_replacement =>
      selection_tournament_replacement m data population individuals k_group s
  | .tournament_without_replacement =>
      selection_tournament_no_replacement m data population individuals k_group s

/-- The closed set of crossover operators offered by
`CrossoverFunction.get_functions` / `from_string`. -/
inductive CrossoverOp : Type
  | single_point : CrossoverOp
  | two_points : CrossoverOp
deriving DecidableEq

/-- The display name paired with each crossover operator (the source names
the two-point operator's `NamedFunction` "Two point"). -/
def CrossoverOp.name : CrossoverOp → String
  | .single_point => "Single point"
  | .two_points => "Two point"

/-- Dispatch of a crossover descriptor to its implementation (single-point
crossover never raises, so its result is wrapped in `.ok`). -/
def CrossoverOp.apply {S : Type} (op : CrossoverOp) (m : RNGModel S) (progenitors : Matrix2)
    (crossover_probability : ℚ) (s : S) : Except GAError (Matrix2 × S) :=
  match op with
  | .single_point => .ok (crossover_single_point m progenitors crossover_probability s)
  | .two_points => crossover_two_points m progenitors crossover_probability s

/-- The closed set of mutation operators offered by
`MutationFunction.get_functions` / `from_string`. -/
inductive MutationOp : Type
  | uniform : MutationOp
  | non_uniform : MutationOp
deriving DecidableEq

/-- The display name paired with each mutation operator. -/
def MutationOp.name : MutationOp → String
  | .uniform => "Uniform"
  | .non_uniform => "Non-uniform"

/-- Dispatch of a mutation descriptor to its implementation (both mutation
operators are total). -/
def MutationOp.apply {S : Type} (op : MutationOp) (m : RNGModel S) (population : Matrix2)
    (mutation_probability : ℚ) (s : S) : Matrix2 × S :=
  match op with
  | .uniform => mutation_uniform m population mutation_probability s
  | .non_uniform => mutation_non_uniform m population mutation_probability s

/-- Python `round(x, 5)` idealized on ℚ: scale by `10^5`, round half to even,
rescale.  (Python rounds the binary double; on the exact rationals used in
this development the two agree whenever the value is representable, and no
claim below depends on the rounding rule itself.) -/
def roundHalfEven (q : ℚ) : ℤ :=
  let f := ⌊q⌋
  if q - f < 1 / 2 then f
  else if (1 : ℚ) / 2 < q - f then f + 1
  else if f % 2 = 0 then f else f + 1

/-- `round(p, 5)` as applied to both probabilities at the top of
`run_experiment`. -/
def round5 (q : ℚ) : ℚ := (roundHalfEven (q * 100000) : ℚ) / 100000

/-- One iteration of the `for i in range(iterations)` loop of
`run_experiment` in `genetic_algorithm/experiment.py`: selection with
arguments `(individual_count, individual_count // 2)`, crossover, mutation,
`population = np.concatenate((progenitors, children))`, then the fitness
statistics `np.min` and `np.mean` recorded for this iteration. -/
def gaStep {S : Type} (m : RNGModel S) (data : Matrix2) (sel : SelectionOp)
    (cross : CrossoverOp) (mutOp : MutationOp) (cp mp : ℚ) (individual_count : ℕ)
    (population : Matrix2) (s : S) : Except GAError (Matrix2 × ℚ × ℚ × S) :=
  match sel.apply m data population individual_count (individual_count / 2) s with
  | .error e => .error e
  | .ok (progenitors, s1) =>
    match cross.apply m progenitors cp s1 with
    | .error e => .error e
    | .ok (children, s2) =>
      let children2 := (mutOp.apply m children mp s2).1
      let s3 := (mutOp.apply m children mp s2).2
      let newPopulation := progenitors ++ children2
      let fitnesses := fitness_function data newPopulation
      .ok (newPopulation, npMin fitnesses, npMean fitnesses, s3)

/-- The whole generational loop of `run_experiment`: iterates `gaStep`,
collecting the per-iteration `best_fitnesses` and `average_fitnesses` traces
in iteration order, and returns the final population and state. -/
def gaLoop {S : Type} (m : RNGModel S) (data : Matrix2) (sel : SelectionOp)
    (cross : CrossoverOp) (mutOp : MutationOp) (cp mp : ℚ) (individual_count : ℕ) :
    ℕ → Matrix2 → S → Except GAError (Matrix2 × List ℚ × List ℚ × S)
  | 0, population, s => .ok (population, [], [], s)
  | k + 1, population, s =>
    match gaStep m data sel cross mutOp cp mp individual_count population s with
    | .error e => .error e
    | .ok (population', b, a, s') =>
      match gaLoop m data sel cross mutOp cp mp individual_count k population' s' with
      | .error e => .error e
      | .ok (populationF, bs, avs, s'') => .ok (populationF, b :: bs, a :: avs, s'')

/-- The deterministic collaborators `run_experiment` uses besides the RNG:
`readDat` models `read_dat` (file loading and the first-column drop, outside
the engine), `arr2string` models `np.array2string(..., precision=5,
separator=",")`, `floatStr` models Python `str()` on a float, and `render`
models the matplotlib rendering of the two fitness curves into PNG bytes.
All four are pure functions — fixed for the lifetime of a process — which is
exactly what the determinism claims need. -/
structure Env : Type where
  readDat : String → Matrix2
  arr2string : Row → String
  floatStr : ℚ → String
  render : List ℚ → List ℚ → List ℕ

/-- The `Result` dataclass of `genetic_algorithm/result.py`.  Numeric fields
keep their source types (`int` → `Int`/`ℕ`, `float` → `ℚ`); the three
`NamedFunction` fields are the operator descriptors (their `str()` is their
name); `plot` is the opaque PNG byte buffer. -/
structure Result : Type where
  dataset : String
  seed : Int
  individual_count : ℕ
  iterations : ℕ
  crossover_probability : ℚ
  mutation_probability : ℚ
  progenitor_selection_function : SelectionOp
  crossover_function : CrossoverOp
  mutation_function : MutationOp
  best_fitness : ℚ
  best_individual : String
  plot : List ℕ
deriving DecidableEq

/-- `run_experiment` from `genetic_algorithm/experiment.py`.  The parameter
`s_ambient` is the state of the global numpy RNG at call time; the first
statement `np.random.seed(seed)` replaces it by `m.seedState seed`, so the
body never reads it.  After the loop: `best_fitness = np.min(best_fitnesses)`
(the minimum over all iterations), the plot is rendered from the two traces,
the final population is re-evaluated, and its argmin row is stringified as
`best_individual`. -/
def runExperiment {S : Type} (env : Env) (m : RNGModel S) (dataset_filename : String)
    (seed : Int) (individual_count : ℕ) (iterations : ℕ) (sel : SelectionOp)
    (mutOp : MutationOp) (cross : CrossoverOp) (crossover_probability : ℚ)
    (mutation_probability : ℚ) (s_ambient : S) : Except GAError Result :=
  let s0 := m.seedState seed
  let cp := round5 crossover_probability
  let mp := round5 mutation_probability
  let data := env.readDat dataset_filename
  let population := (create_population m data individual_count s0).1
  let s1 := (create_population m data individual_count s0).2
  match gaLoop m data sel cross mutOp cp mp individual_count iterations population s1 with
  | .error e => .error e
  | .ok (populationF, bests, avgs, _sF) =>
    let best_fitness := npMin bests
    let plot := env.render bests avgs
    let fitnesses := fitness_function data populationF
    let best_individual := populationF.getD (npArgmin fitnesses) []
    .ok { dataset := dataset_filename
          seed := seed
          individual_count := individual_count
          iterations := iterations
          crossover_probability := cp
          mutation_probability := mp
          progenitor_selection_function := sel
          crossover_function := cross
          mutation_function := mutOp
          best_fitness := best_fitness
          best_individual := env.arr2string best_individual
          plot := plot }

/-- Truncation to a 32-bit word (all SHA-256 arithmetic is modulo `2^32`). -/
def w32 (x : ℕ) : ℕ := x % 4294967296

/-- 32-bit right rotation. -/
def rotr32 (x n : ℕ) : ℕ := w32 ((x >>> n) ||| (x <<< (32 - n)))

/-- The 64 SHA-256 round constants (fractional parts of the cube roots of
the first 64 primes). -/
def sha256K : List ℕ :=
  [1116352408, 1899447441, 3049323471, 3921009573, 961987163, 1508970993,
   2453635748, 2870763221, 3624381080, 310598401, 607225278, 1426881987,
   1925078388, 2162078206, 2614888103, 3248222580, 3835390401, 4022224774,
   264347078, 604807628, 770255983, 1249150122, 1555081692, 1996064986,
   2554220882, 2821834349, 2952996808, 3210313671, 3336571891, 3584528711,
   113926993, 338241895, 666307205, 773529912, 1294757372, 1396182291,
   1695183700, 1986661051, 2177026350, 2456956037, 2730485921, 2820302411,
   3259730800, 3345764771, 3516065817, 3600352804, 4094571909, 275423344,
   430227734, 506948616, 659060556, 883997877, 958139571, 1322822218,
   1537002063, 1747873779, 1955562222, 2024104815, 2227730452, 2361852424,
   2428436474, 2756734187, 3204031479, 3329325298]

/-- The SHA-256 initial hash value. -/
def sha256H0 : List ℕ :=
  [1779033703, 3144134277, 1013904242, 2773480762, 1359893119, 2600822924,
   528734635, 1541459225]

/-- The next word of the SHA-256 message schedule, computed from the words
produced so far. -/
def sha256NextWord (w : List ℕ) : ℕ :=
  let t := w.length
  let w15 := w.getD (t - 15) 0
  let w2 := w.getD (t - 2) 0
  let s0 := (rotr32 w15 7) ^^^ ((rotr32 w15 18) ^^^ (w15 >>> 3))
  let s1 := (rotr32 w2 17) ^^^ ((rotr32 w2 19) ^^^ (w2 >>> 10))
  w32 (w.getD (t - 16) 0 + s0 + w.getD (t - 7) 0 + s1)

/-- Extends the 16-word schedule by `k` further words. -/
def sha256Extend : List ℕ → ℕ → List ℕ
  | w, 0 => w
  | w, k + 1 => sha256Extend (w ++ [sha256NextWord w]) k

/-- One SHA-256 compression round: `state` is the eight working variables
`a..h`, `kw` the round constant paired with the schedule word. -/
def sha256Compress (state : List ℕ) (kw : ℕ × ℕ) : List ℕ :=
  let a := state.getD 0 0
  let b := state.getD 1 0
  let c := state.getD 2 0
  let d := state.getD 3 0
  let e := state.getD 4 0
  let f := state.getD 5 0
  let g := state.getD 6 0
  let h := state.getD 7 0
  let bigS1 := (rotr32 e 6) ^^^ ((rotr32 e 11) ^^^ (rotr32 e 25))
  let ch := (e &&& f) ^^^ ((e ^^^ 4294967295) &&& g)
  let temp1 := w32 (h + bigS1 + ch + kw.1 + kw.2)
  let bigS0 := (rotr32 a 2) ^^^ ((rotr32 a 13) ^^^ (rotr32 a 22))
  let maj := (a &&& b) ^^^ ((a &&& c) ^^^ (b &&& c))
  let temp2 := w32 (bigS0 + maj)
  [w32 (temp1 + temp2), a, b, c, w32 (d + temp1), e, f, g]

/-- `n` big-endian bytes of `x`. -/
def beBytes : ℕ → ℕ → List ℕ
  | 0, _ => []
  | n + 1, x => beBytes n (x / 256) ++ [x % 256]

/-- Processes one 64-byte block: builds the 16 initial schedule words
(big-endian), extends to 64, folds the compression rounds, and adds the
result into the incoming hash value. -/
def sha256Block (h : List ℕ) (block : List ℕ) : List ℕ :=
  let ws0 := (List.range 16).map (fun i =>
    block.getD (4 * i) 0 * 16777216 + block.getD (4 * i + 1) 0 * 65536
      + block.getD (4 * i + 2) 0 * 256 + block.getD (4 * i + 3) 0)
  let w := sha256Extend ws0 48
  let st := (sha256K.zip w).foldl sha256Compress h
  List.zipWith (fun x y => w32 (x + y)) h st

/-- SHA-256 padding: append `0x80`, zero bytes up to 56 mod 64, then the
64-bit big-endian bit length. -/
def sha256Pad (msg : List ℕ) : List ℕ :=
  let len := msg.length
  let k := (64 - ((len + 9) % 64)) % 64
  msg ++ 128 :: (List.replicate k 0 ++ beBytes 8 (8 * len))

/-- Folds `sha256Block` over `n` consecutive 64-byte blocks. -/
def sha256Blocks : List ℕ → List ℕ → ℕ → List ℕ
  | h, _, 0 => h
  | h, rest, n + 1 => sha256Blocks (sha256Block h (rest.take 64)) (rest.drop 64) n

/-- The SHA-256 digest (32 bytes) of a byte message. -/
def sha256Digest (msg : List ℕ) : List ℕ :=
  let padded := sha256Pad msg
  let hF := sha256Blocks sha256H0 padded (padded.length / 64)
  (hF.map (fun wv => beBytes 4 wv)).flatten

/-- Lower-case hex digit. -/
def hexChar (n : ℕ) : Char := if n < 10 then Char.ofNat (48 + n) else Char.ofNat (87 + n)

/-- Lower-case hex string of a byte list (`hexdigest()`). -/
def bytesToHex (bs : List ℕ) : String :=
  String.mk ((bs.map (fun b => [hexChar (b / 16), hexChar (b % 16)])).flatten)

/-- UTF-8 encoding of one character (1 to 4 bytes). -/
def utf8Char (c : Char) : List ℕ :=
  let n := c.toNat
  if n < 128 then [n]
  else if n < 2048 then [192 ||| (n >>> 6), 128 ||| (n &&& 63)]
  else if n < 65536 then
    [224 ||| (n >>> 12), 128 ||| ((n >>> 6) &&& 63), 128 ||| (n &&& 63)]
  else
    [240 ||| (n >>> 18), 128 ||| ((n >>> 12) &&& 63), 128 ||| ((n >>> 6) &&& 63), 128 ||| (n &&& 63)]

/-- `s.encode()`: the UTF-8 bytes of a string. -/
def utf8Bytes (s : String) : List ℕ := (s.data.map utf8Char).flatten

/-- `hashlib.sha256(s.encode()).hexdigest()`. -/
def sha256hex (s : String) : String := bytesToHex (sha256Digest (utf8Bytes s))

/-- `Result.to_list` from `genetic_algorithm/result.py`, already applied to
`str(...)` of each element: Python `str` is the identity on the dataset name
and `best_individual`, decimal notation on the three integers, the
`NamedFunction` name on the three operators (its `__str__`), and — on the
three float fields — the rendering `fs`, an arbitrary pure function supplied
by the caller (floating-point repr is not modelled; every claim below holds
for every choice of `fs`). -/
def Result.to_list (r : Result) (fs : ℚ → String) : List String :=
  [r.dataset, toString r.seed, toString r.individual_count, toString r.iterations,
   fs r.crossover_probability, fs r.mutation_probability,
   r.progenitor_selection_function.name, r.crossover_function.name, r.mutation_function.name,
   fs r.best_fitness, r.best_individual]

/-- `Result.calculate_hash` from `genetic_algorithm/result.py`:
`hashlib.sha256(",".flatten(str(x) for x in self.to_list()).encode()).hexdigest()`. -/
def Result.calculate_hash (r : Result) (fs : ℚ → String) : String :=
  sha256hex (String.intercalate "," (r.to_list fs))

/-- A concrete, fully computable RNG model over the state `ℕ` (a position
counter): `qs` is the stream of uniform draws, `ns` the stream of integer
draws.  `rand` reads `qs`; `randint lo hi` maps `ns` into `[lo, hi)`;
`choice pool size _` rotates the pool by `ns` and takes a prefix (a distinct
sample whenever the pool has no duplicates).  Used to instantiate witnesses
and counterexamples on explicit random streams. -/
def streamModel (qs : ℕ → ℚ) (ns : ℕ → ℕ) : RNGModel ℕ where
  seedState := fun _ => 0
  rand := fun s => (qs s, s + 1)
  randint := fun lo hi s => (if hi ≤ lo then lo else lo + ns s % (hi - lo), s + 1)
  choice := fun pool size _ s => ((pool.rotate (ns s)).take size, s + 1)

/-- A one-row dataset `[[0, 0]]` (one feature column and the target column,
as produced by `read_dat` after dropping the label column): an individual
`[w0, w1]` predicts `w0` and has fitness `w0 ^ 2`. -/
def dataZ : Matrix2 := [[0, 0]]

/-- The all-zero random stream: every `rand` draw is 0, every integer draw
is 0 (so every `choice` takes the untouched prefix of its pool). -/
def rngZero : RNGModel ℕ := streamModel (fun _ => 0) (fun _ => 0)

/-- The uniform-draw stream of the two-iteration demonstration run: the
fresh-value matrices of both uniform mutations (positions 11-14 and 22-25 of
the stream) are `1/2`, everything else is 0. -/
def qsRun : ℕ → ℚ := fun k => if (11 ≤ k ∧ k < 15) ∨ (22 ≤ k ∧ k < 26) then (1 : ℚ) / 2 else 0

/-- The integer-draw stream of the demonstration run: the two tournaments of
iteration 1 (stream positions 15 and 16) pick the mutated individuals 2 and
3 of the four-row population; every other tournament picks index 0. -/
def nsRun : ℕ → ℕ := fun k => if k = 15 then 2 else if k = 16 then 3 else 0

/-- The RNG of the two-iteration demonstration run: iteration 0 turns the
children into `[1/2, 1/2]` rows (fitness `1/4`) while the progenitors stay
perfect, iteration 1 selects only mutated rows, so the final population is
uniformly worse than the best population ever seen. -/
def rngRun : RNGModel ℕ := streamModel qsRun nsRun

/-- A three-row population over `dataZ` with fitnesses `[0, 1, 4]`. -/
def popDup : Matrix2 := [[0, 0], [1, 0], [2, 0]]

/-- The stream driving the duplicate-winner run of
`selection_tournament_no_replacement`: the first tournament samples pool
positions `[1, 2]` (rotation by 1), the second samples the untouched prefix
of what is left. -/
def rngDup : RNGModel ℕ := streamModel (fun _ => 0) (fun k => if k = 0 then 1 else 0)

/-- A concrete deterministic environment for witness runs: the dataset file
is always `dataZ`, rows are stringified via their numerators, floats via
numerator and denominator, and the plot artifact is empty. -/
def envZ : Env where
  readDat := fun _ => dataZ
  arr2string := fun r => toString (r.map Rat.num)
  floatStr := fun q => toString q.num ++ "/" ++ toString q.den
  render := fun _ _ => []

/-- A second environment, used to exhibit records that differ only in their
plot artifact. -/
def envP : Env where
  readDat := fun _ => dataZ
  arr2string := fun r => toString (r.map Rat.num)
  floatStr := fun q => toString q.num ++ "/" ++ toString q.den
  render := fun _ _ => [1, 2, 3]

/-- Two-step structural induction on lists, matching the consecutive-pair
recursion of both crossover operators. -/
theorem list_pair_induction {α : Type} {P : List α → Prop} (h0 : P []) (h1 : ∀ a, P [a])
    (h2 : ∀ a b l, P l → P (a :: b :: l)) : ∀ l, P l
  | [] => h0
  | [a] => h1 a
  | a :: b :: l => h2 a b l (list_pair_induction h0 h1 h2 l)

/-- An index-aware map whose body fixes every element is the identity. -/
theorem mapIdx_id_of {α : Type} (l : List α) (f : ℕ → α → α) (h : ∀ i x, f i x = x) :
    l.mapIdx f = l := by
  induction l generalizing f with
  | nil => simp
  | cons a t ih =>
    rw [List.mapIdx_cons, h, ih (fun i x => f (i + 1) x) (fun i x => h (i + 1) x)]

/-- `getD` with a nonnegative default over a list of nonnegative values is
nonnegative. -/
theorem getD_nonneg {l : List ℚ} (h : ∀ x ∈ l, 0 ≤ x) {d : ℚ} (hd : 0 ≤ d) :
    ∀ n, 0 ≤ l.getD n d := by
  induction l with
  | nil => intro n; simpa using hd
  | cons a t ih =>
    intro n
    cases n with
    | zero => simpa using h a (by simp)
    | succ k => simpa using ih (fun x hx => h x (by simp [hx])) k

/-- `getD` through a map over `List.range`. -/
theorem getD_map_range {α : Type} (g : ℕ → α) (r i : ℕ) (d : α) :
    ((List.range r).map g).getD i d = if i < r then g i else d := by
  rw [List.getD_eq_getElem?_getD]
  by_cases h : i < r
  · simp [List.getElem?_map, List.getElem?_range, h]
  · rw [List.getElem?_eq_none (by simpa using not_lt.mp h)]
    simp [h]

/-- `npRandList` produces exactly `k` draws. -/
theorem npRandList_length {S : Type} (m : RNGModel S) :
    ∀ (k : ℕ) (s : S), ((npRandList m k s).1).length = k
  | 0, _ => rfl
  | k + 1, s => by
    simp only [npRandList, List.length_cons]
    rw [npRandList_length m k]

/-- Under a valid model every `npRandList` draw is nonnegative. -/
theorem npRandList_nonneg {S : Type} (m : RNGModel S) (hv : RNGValid m) :
    ∀ (k : ℕ) (s : S), ∀ x ∈ (npRandList m k s).1, 0 ≤ x
  | 0, _ => by simp [npRandList]
  | k + 1, s => by
    simp only [npRandList, List.mem_cons]
    rintro x (rfl | hx)
    · exact hv.rand_nonneg s
    · exact npRandList_nonneg m hv k (m.rand s).2 x hx

/-- Under a valid model every `npRandList` draw is below 1. -/
theorem npRandList_lt_one {S : Type} (m : RNGModel S) (hv : RNGValid m) :
    ∀ (k : ℕ) (s : S), ∀ x ∈ (npRandList m k s).1, x < 1
  | 0, _ => by simp [npRandList]
  | k + 1, s => by
    simp only [npRandList, List.mem_cons]
    rintro x (rfl | hx)
    · exact hv.rand_lt_one s
    · exact npRandList_lt_one m hv k (m.rand s).2 x hx

/-- Every (defaulted) entry read out of a `npRandMatrix` draw is
nonnegative. -/
theorem npRandMatrix_getD_nonneg {S : Type} (m : RNGModel S) (hv : RNGValid m)
    (rows cols : ℕ) (s : S) (i j : ℕ) :
    0 ≤ (((npRandMatrix m rows cols s).1).getD i []).getD j 0 := by
  simp only [npRandMatrix]
  rw [getD_map_range]
  by_cases hi : i < rows
  · simp only [hi, if_true]
    rw [getD_map_range]
    by_cases hj : j < cols
    · simp only [hj, if_true]
      exact getD_nonneg (npRandList_nonneg m hv _ s) le_rfl _
    · simp [hj]
  · simp [hi]

/-- `npRandMatrix` returns `rows` rows. -/
theorem npRandMatrix_length {S : Type} (m : RNGModel S) (rows cols : ℕ) (s : S) :
    ((npRandMatrix m rows cols s).1).length = rows := by
  simp [npRandMatrix]

/-- The first occurrence index returned by `npArgmin` is within bounds on a
nonempty list. -/
theorem npArgmin_lt_length : ∀ (l : List ℚ), l ≠ [] → npArgmin l < l.length
  | [], h => absurd rfl h
  | [_], _ => Nat.zero_lt_one
  | x :: y :: ys, _ => by
    simp only [npArgmin]
    split
    · simp
    · have := npArgmin_lt_length (y :: ys) (by simp)
      simpa using Nat.succ_lt_succ this

/-- The value at the `npArgmin` index is a minimum of the list. -/
theorem npArgmin_min : ∀ (l : List ℚ), ∀ k < l.length,
    l.getD (npArgmin l) 0 ≤ l.getD k 0
  | [] => by simp
  | [x] => by
    intro k hk
    have hk0 : k = 0 := Nat.lt_one_iff.mp (by simpa using hk)
    subst hk0
    simp [npArgmin]
  | x :: y :: ys => by
    intro k hk
    have ih := npArgmin_min (y :: ys)
    simp only [npArgmin]
    split
    · rename_i hx
      cases k with
      | zero => simp
      | succ k' =>
        rw [List.getD_cons_zero, List.getD_cons_succ]
        exact le_trans hx (ih k' (by simpa using Nat.lt_of_succ_lt_succ hk))
    · rename_i hx
      rw [List.getD_cons_succ]
      cases k with
      | zero =>
        rw [List.getD_cons_zero]
        exact le_of_lt (lt_of_not_le hx)
      | succ k' =>
        rw [List.getD_cons_succ]
        exact ih k' (by simpa using Nat.lt_of_succ_lt_succ hk)

/-- `npArgmin` returns the first position attaining the minimum: every
earlier position holds a strictly larger value. -/
theorem npArgmin_first : ∀ (l : List ℚ), ∀ k < npArgmin l,
    l.getD (npArgmin l) 0 < l.getD k 0
  | [] => by simp [npArgmin]
  | [x] => by simp [npArgmin]
  | x :: y :: ys => by
    intro k hk
    have ih := npArgmin_first (y :: ys)
    simp only [npArgmin] at hk ⊢
    split
    · rename_i hx
      rw [if_pos hx] at hk
      exact absurd hk (Nat.not_lt_zero k)
    · rename_i hx
      rw [if_neg hx] at hk
      rw [List.getD_cons_succ]
      cases k with
      | zero =>
        rw [List.getD_cons_zero]
        exact lt_of_not_le hx
      | succ k' =>
        rw [List.getD_cons_succ]
        exact ih k' (Nat.lt_of_succ_lt_succ hk)

/-- Coercion of a list append into a multiset sum (local convenience). -/
theorem coe_append_multiset (u v : List ℚ) :
    ((u ++ v : List ℚ) : Multiset ℚ) = (u : Multiset ℚ) + (v : Multiset ℚ) := by
  simp

/-- A single-point swapped pair preserves the combined multiset of gene
values. -/
theorem pair_conserve_single (a b : List ℚ) (c : ℕ) :
    ((a.take c ++ b.drop c : List ℚ) : Multiset ℚ) + ((b.take c ++ a.drop c : List ℚ) : Multiset ℚ)
      = (a : Multiset ℚ) + (b : Multiset ℚ) := by
  have ha : (a : Multiset ℚ) = ↑(a.take c) + ↑(a.drop c) := by
    conv_lhs => rw [← List.take_append_drop c a]
    simp
  have hb : (b : Multiset ℚ) = ↑(b.take c) + ↑(b.drop c) := by
    conv_lhs => rw [← List.take_append_drop c b]
    simp
  rw [coe_append_multiset, coe_append_multiset, ha, hb]
  abel

/-- The three-piece decomposition used by the two-point swap. -/
theorem take_mid_drop (a : List ℚ) (c1 c2 : ℕ) (h : c1 ≤ c2) :
    a.take c1 ++ ((a.drop c1).take (c2 - c1) ++ a.drop c2) = a := by
  conv_rhs => rw [← List.take_append_drop c1 a]
  congr 1
  conv_rhs => rw [← List.take_append_drop (c2 - c1) (a.drop c1)]
  congr 1
  rw [List.drop_drop]
  congr 1
  omega

/-- A two-point swapped pair preserves the combined multiset of gene
values. -/
theorem pair_conserve_two (a b : List ℚ) (c1 c2 : ℕ) (h : c1 ≤ c2) :
    ((a.take c1 ++ ((b.drop c1).take (c2 - c1) ++ a.drop c2) : List ℚ) : Multiset ℚ)
      + ((b.take c1 ++ ((a.drop c1).take (c2 - c1) ++ b.drop c2) : List ℚ) : Multiset ℚ)
      = (a : Multiset ℚ) + (b : Multiset ℚ) := by
  have ha : (a : Multiset ℚ)
      = ↑(a.take c1) + (↑((a.drop c1).take (c2 - c1)) + ↑(a.drop c2)) := by
    conv_lhs => rw [← take_mid_drop a c1 c2 h]
    rw [coe_append_multiset, coe_append_multiset]
  have hb : (b : Multiset ℚ)
      = ↑(b.take c1) + (↑((b.drop c1).take (c2 - c1)) + ↑(b.drop c2)) := by
    conv_lhs => rw [← take_mid_drop b c1 c2 h]
    rw [coe_append_multiset, coe_append_multiset]
  rw [coe_append_multiset, coe_append_multiset, coe_append_multiset, coe_append_multiset,
      ha, hb]
  abel

/-- `singlePointGo` preserves the row count. -/
theorem singlePointGo_length {S : Type} (m : RNGModel S) (cols : ℕ) (p : ℚ) :
    ∀ (l : Matrix2) (s : S), ((singlePointGo m cols l p s).1).length = l.length := by
  intro l
  induction l using list_pair_induction with
  | h0 => intro s; rfl
  | h1 a => intro s; rfl
  | h2 a b t ih =>
    intro s
    simp only [singlePointGo]
    split
    · simp only [List.length_cons]
      rw [ih]
    · simp only [List.length_cons]
      rw [ih]

/-- `crossover_single_point` preserves the row count. -/
theorem crossover_single_point_length {S : Type} (m : RNGModel S) (progenitors : Matrix2)
    (p : ℚ) (s : S) :
    ((crossover_single_point m progenitors p s).1).length = progenitors.length :=
  singlePointGo_length m _ p progenitors s

/-- When `twoPointsGo` succeeds, the row count is preserved. -/
theorem twoPointsGo_length {S : Type} (m : RNGModel S) (cols : ℕ) (p : ℚ) :
    ∀ (l : Matrix2) (s : S) (out : Matrix2) (s' : S),
      twoPointsGo m cols l p s = .ok (out, s') → out.length = l.length := by
  intro l
  induction l using list_pair_induction with
  | h0 =>
    intro s out s' h
    simp only [twoPointsGo] at h
    cases h
    rfl
  | h1 a =>
    intro s out s' h
    simp only [twoPointsGo] at h
    split at h
    · cases h
    · cases h
      rfl
  | h2 a b t ih =>
    intro s out s' h
    simp only [twoPointsGo] at h
    split at h
    · split at h
      · cases h
      · rename_i res r1 r2 heq
        cases h
        simp only [List.length_cons]
        rw [ih _ _ _ heq]
    · split at h
      · cases h
      · rename_i res r1 r2 heq
        cases h
        simp only [List.length_cons]
        rw [ih _ _ _ heq]

/-- When the with-replacement tournament loop succeeds it returns exactly
one winner per round. -/
theorem tournReplGo_length {S : Type} (m : RNGModel S) (population : Matrix2)
    (fitnesses : List ℚ) (k_group : ℕ) :
    ∀ (n : ℕ) (s : S) (out : Matrix2) (s' : S),
      tournReplGo m population fitnesses k_group n s = .ok (out, s') →
      out.length = n := by
  intro n
  induction n with
  | zero =>
    intro s out s' h
    simp only [tournReplGo] at h
    cases h
    rfl
  | succ k ih =>
    intro s out s' h
    simp only [tournReplGo] at h
    split at h
    · cases h
    · rename_i res idxs s1 heq
      split at h
      · cases h
      · rename_i res2 rest s2 heq2
        cases h
        simp only [List.length_cons]
        rw [ih _ _ _ heq2]

/-- The without-replacement tournament loop always succeeds and returns
exactly one winner per round (the clamped sample size never exceeds the
pool). -/
theorem tournNoReplGo_length {S : Type} (m : RNGModel S) (population : Matrix2)
    (fitnesses : List ℚ) (k_group : ℕ) :
    ∀ (n : ℕ) (available : List ℕ) (s : S) (out : Matrix2) (s' : S),
      tournNoReplGo m population fitnesses k_group n available s = .ok (out, s') →
      out.length = n := by
  intro n
  induction n with
  | zero =>
    intro av s out s' h
    simp only [tournNoReplGo] at h
    cases h
    rfl
  | succ k ih =>
    intro av s out s' h
    simp only [tournNoReplGo] at h
    split at h
    · cases h
    · rename_i res idxs s1 heq
      split at h
      · cases h
      · rename_i res2 rest s2 heq2
        cases h
        simp only [List.length_cons]
        rw [ih _ _ _ _ heq2]

/-- When roulette selection succeeds it returns exactly `individuals`
rows. -/
theorem selection_roulette_length {S : Type} (m : RNGModel S) (hv : RNGValid m)
    (data : Matrix2) (population : Matrix2) (individuals k_group : ℕ) (s : S)
    (out : Matrix2) (s' : S)
    (h : selection_roulette m data population individuals k_group s = .ok (out, s')) :
    out.length = individuals := by
  simp only [selection_roulette, npChoice] at h
  split at h
  · cases h
  · rename_i res indexes s1 heq
    cases h
    split at heq
    · rename_i hle
      have h3 : indexes = (m.choice (List.range population.length) individuals
          (some ((List.map (fun f => 1 / f) (fitness_function data population)).map
            (fun f => f / (List.map (fun f => 1 / f) (fitness_function data population)).sum))) s).1 := by
        injection heq with h4
        rw [h4]
      rw [List.length_map, h3]
      exact hv.choice_length _ _ _ _ (by simpa using hle)
    · cases heq

/-- When any selection operator succeeds it returns exactly `individuals`
rows. -/
theorem selectionOp_apply_length {S : Type} (op : SelectionOp) (m : RNGModel S)
    (hv : RNGValid m) (data : Matrix2) (population : Matrix2) (individuals k_group : ℕ)
    (s : S) (out : Matrix2) (s' : S)
    (h : op.apply m data population individuals k_group s = .ok (out, s')) :
    out.length = individuals := by
  cases op with
  | roulette => exact selection_roulette_length m hv data population individuals k_group s out s' h
  | tournament_with_replacement =>
    exact tournReplGo_length m population (fitness_function data population) k_group
      individuals s out s' h
  | tournament_without_replacement =>
    exact tournNoReplGo_length m population (fitness_function data population) k_group
      individuals (List.range population.length) s out s' h

/-- When any crossover operator succeeds it preserves the row count. -/
theorem crossoverOp_apply_length {S : Type} (op : CrossoverOp) (m : RNGModel S)
    (progenitors : Matrix2) (p : ℚ) (s : S) (out : Matrix2) (s' : S)
    (h : op.apply m progenitors p s = .ok (out, s')) :
    out.length = progenitors.length := by
  cases op with
  | single_point =>
    simp only [CrossoverOp.apply] at h
    have h2 : crossover_single_point m progenitors p s = (out, s') := by
      injection h
    have h3 := crossover_single_point_length m progenitors p s
    rw [h2] at h3
    exact h3
  | two_points =>
    exact twoPointsGo_length m _ p progenitors s out s' h

/-- Uniform mutation preserves the row count. -/
theorem mutation_uniform_length {S : Type} (m : RNGModel S) (population : Matrix2)
    (p : ℚ) (s : S) :
    ((mutation_uniform m population p s).1).length = population.length := by
  simp [mutation_uniform]

/-- Non-uniform mutation preserves the row count. -/
theorem mutation_non_uniform_length {S : Type} (m : RNGModel S) (population : Matrix2)
    (p : ℚ) (s : S) :
    ((mutation_non_uniform m population p s).1).length = population.length := by
  simp [mutation_non_uniform]

/-- Either mutation operator preserves the row count. -/
theorem mutationOp_apply_length {S : Type} (op : MutationOp) (m : RNGModel S)
    (population : Matrix2) (p : ℚ) (s : S) :
    ((op.apply m population p s).1).length = population.length := by
  cases op with
  | uniform => exact mutation_uniform_length m population p s
  | non_uniform => exact mutation_non_uniform_length m population p s

/-- When one loop iteration succeeds, the concatenated population it builds
has exactly `2 * individual_count` rows (the selection call of
`run_experiment` passes `individual_count` as the number of progenitors, so
progenitors and children contribute `individual_count` rows each). -/
theorem gaStep_length {S : Type} (m : RNGModel S) (hv : RNGValid m) (data : Matrix2)
    (sel : SelectionOp) (cross : CrossoverOp) (mutOp : MutationOp) (cp mp : ℚ)
    (individual_count : ℕ) (population : Matrix2) (s : S) (out : Matrix2) (b a : ℚ) (s' : S)
    (h : gaStep m data sel cross mutOp cp mp individual_count population s
      = .ok (out, b, a, s')) :
    out.length = 2 * individual_count := by
  simp only [gaStep] at h
  split at h
  · cases h
  · rename_i res progenitors s1 hsel
    split at h
    · cases h
    · rename_i res2 children s2 hcross
      cases h
      have hp := selectionOp_apply_length sel m hv data population individual_count
        (individual_count / 2) s progenitors s1 hsel
      have hc := crossoverOp_apply_length cross m progenitors cp s1 children s2 hcross
      have hm := mutationOp_apply_length mutOp m children mp s2
      simp only [List.length_append]
      rw [hp, hm, hc, hp]
      omega

/-- The concrete stream model satisfies every numpy guarantee as soon as its
uniform stream stays in `[0, 1)`. -/
theorem streamModel_valid (qs : ℕ → ℚ) (ns : ℕ → ℕ) (h0 : ∀ k, 0 ≤ qs k)
    (h1 : ∀ k, qs k < 1) : RNGValid (streamModel qs ns) := by
  refine ⟨fun s => h0 s, fun s => h1 s, ?_, ?_, ?_, ?_, ?_⟩
  · intro lo hi s hlt
    simp only [streamModel]
    rw [if_neg (by omega)]
    omega
  · intro lo hi s hlt
    simp only [streamModel]
    rw [if_neg (by omega)]
    have := Nat.mod_lt (ns s) (y := hi - lo) (by omega)
    omega
  · intro pool size p s hle
    simp only [streamModel]
    rw [List.length_take, List.length_rotate]
    omega
  · intro pool size p s x hx
    simp only [streamModel] at hx
    exact List.mem_rotate.mp ((List.take_sublist _ _).subset hx)
  · intro pool size p s hnd
    exact List.Nodup.sublist (List.take_sublist _ _) ((List.nodup_rotate).mpr hnd)

/-- A left fold of `min` is bounded by its seed and by every element. -/
theorem foldl_min_le : ∀ (xs : List ℚ) (a : ℚ),
    xs.foldl min a ≤ a ∧ ∀ x ∈ xs, xs.foldl min a ≤ x
  | [], a => by simp
  | x :: xs, a => by
    have ih := foldl_min_le xs (min a x)
    simp only [List.foldl_cons, List.mem_cons]
    refine ⟨le_trans ih.1 (min_le_left a x), ?_⟩
    rintro y (rfl | hy)
    · exact le_trans ih.1 (min_le_right a y)
    · exact ih.2 y hy

/-- A left fold of `min` returns its seed or one of its elements. -/
theorem foldl_min_mem : ∀ (xs : List ℚ) (a : ℚ),
    xs.foldl min a = a ∨ xs.foldl min a ∈ xs
  | [], _ => Or.inl rfl
  | x :: xs, a => by
    have ih := foldl_min_mem xs (min a x)
    simp only [List.foldl_cons, List.mem_cons]
    rcases ih with h | h
    · rcases le_total a x with hax | hax
      · left
        rw [h, min_eq_left hax]
      · right
        left
        rw [h, min_eq_right hax]
    · right
      right
      exact h

/-- `npMin` of a nonempty list is one of its elements. -/
theorem npMin_mem : ∀ (l : List ℚ), l ≠ [] → npMin l ∈ l
  | [], h => absurd rfl h
  | x :: xs, _ => by
    simp only [npMin, List.mem_cons]
    rcases foldl_min_mem xs x with h | h
    · exact Or.inl h
    · exact Or.inr h

/-- `npMin` is a lower bound of the list. -/
theorem npMin_le : ∀ (l : List ℚ), ∀ x ∈ l, npMin l ≤ x
  | [], x => by simp
  | y :: ys, x => by
    simp only [npMin, List.mem_cons]
    rintro (rfl | hx)
    · exact (foldl_min_le ys x).1
    · exact (foldl_min_le ys y).2 x hx

/-- A sum of nonnegative rationals vanishes exactly when every term does. -/
theorem sum_eq_zero_iff_of_nonneg : ∀ (l : List ℚ), (∀ x ∈ l, 0 ≤ x) →
    (l.sum = 0 ↔ ∀ x ∈ l, x = 0)
  | [] => by simp
  | a :: t => by
    intro h
    have ht : ∀ x ∈ t, 0 ≤ x := fun x hx => h x (by simp [hx])
    have ih := sum_eq_zero_iff_of_nonneg t ht
    simp only [List.sum_cons, List.mem_cons]
    constructor
    · intro hs
      have ha := h a (by simp)
      have hts : 0 ≤ t.sum := List.sum_nonneg ht
      have ha0 : a = 0 := by linarith
      have hts0 : t.sum = 0 := by linarith
      rintro x (rfl | hx)
      · exact ha0
      · exact ih.mp hts0 x hx
    · intro hz
      rw [hz a (Or.inl rfl), zero_add]
      exact ih.mpr (fun x hx => hz x (Or.inr hx))

/-- The `best_fitnesses` and `average_fitnesses` traces returned by a
successful `gaLoop` hold one entry per iteration. -/
theorem gaLoop_trace_length {S : Type} (m : RNGModel S) (data : Matrix2) (sel : SelectionOp)
    (cross : CrossoverOp) (mutOp : MutationOp) (cp mp : ℚ) (ic : ℕ) :
    ∀ (k : ℕ) (pop : Matrix2) (s : S) (popF : Matrix2) (bests avgs : List ℚ) (s' : S),
      gaLoop m data sel cross mutOp cp mp ic k pop s = .ok (popF, bests, avgs, s') →
      bests.length = k ∧ avgs.length = k := by
  intro k
  induction k with
  | zero =>
    intro pop s popF bests avgs s' h
    simp only [gaLoop, Except.ok.injEq, Prod.mk.injEq] at h
    obtain ⟨-, h2, h3, -⟩ := h
    rw [← h2, ← h3]
    exact ⟨rfl, rfl⟩
  | succ n ih =>
    intro pop s popF bests avgs s' h
    simp only [gaLoop] at h
    split at h
    · cases h
    · rename_i res pop1 b a s1 hstep
      split at h
      · cases h
      · rename_i res2 popF2 bs avs s2 hloop
        simp only [Except.ok.injEq, Prod.mk.injEq] at h
        obtain ⟨-, h2, h3, -⟩ := h
        have := ih pop1 s1 popF2 bs avs s2 hloop
        rw [← h2, ← h3]
        simp only [List.length_cons]
        omega

/-- When at least one iteration runs and the loop succeeds, the final
population has exactly `2 * individual_count` rows. -/
theorem gaLoop_final_length {S : Type} (m : RNGModel S) (hv : RNGValid m) (data : Matrix2)
    (sel : SelectionOp) (cross : CrossoverOp) (mutOp : MutationOp) (cp mp : ℚ) (ic : ℕ) :
    ∀ (k : ℕ) (pop : Matrix2) (s : S) (popF : Matrix2) (bests avgs : List ℚ) (s' : S),
      1 ≤ k →
      gaLoop m data sel cross mutOp cp mp ic k pop s = .ok (popF, bests, avgs, s') →
      popF.length = 2 * ic := by
  intro k
  induction k with
  | zero =>
    intro pop s popF bests avgs s' h1 _
    omega
  | succ n ih =>
    intro pop s popF bests avgs s' h1 h
    simp only [gaLoop] at h
    split at h
    · cases h
    · rename_i res pop1 b a s1 hstep
      split at h
      · cases h
      · rename_i res2 popF2 bs avs s2 hloop
        simp only [Except.ok.injEq, Prod.mk.injEq] at h
        obtain ⟨hF, -, -, -⟩ := h
        cases n with
        | zero =>
          simp only [gaLoop, Except.ok.injEq, Prod.mk.injEq] at hloop
          obtain ⟨hP, -, -, -⟩ := hloop
          rw [← hF, ← hP]
          exact gaStep_length m hv data sel cross mutOp cp mp ic pop s pop1 b a s1 hstep
        | succ nn =>
          rw [← hF]
          exact ih pop1 s1 popF2 bs avs s2 (by omega) hloop

/-- `getD` through `map`, inside bounds. -/
theorem getD_map_of_lt {α β : Type} (g : α → β) (l : List α) (i : ℕ) (h : i < l.length)
    (d : β) (d2 : α) : (l.map g).getD i d = g (l.getD i d2) := by
  rw [List.getD_eq_getElem?_getD, List.getD_eq_getElem?_getD, List.getElem?_map,
      List.getElem?_eq_getElem h]
  simp

/-- One individual's fitness — a mean of squared residuals — is
nonnegative. -/
theorem individual_fitness_nonneg (data : Matrix2) (w : Row) :
    0 ≤ npMean (data.map (fun row =>
      (row.getLastD 0 - (w.headD 0 + npDot row.dropLast w.tail)) ^ 2)) := by
  apply div_nonneg
  · apply List.sum_nonneg
    intro x hx
    obtain ⟨row, -, rfl⟩ := List.mem_map.mp hx
    exact sq_nonneg _
  · positivity

/-- One individual's fitness vanishes exactly when its prediction matches
the target on every data row. -/
theorem individual_fitness_zero_iff (data : Matrix2) (hrows : 1 ≤ data.length) (w : Row) :
    npMean (data.map (fun row =>
        (row.getLastD 0 - (w.headD 0 + npDot row.dropLast w.tail)) ^ 2)) = 0
      ↔ ∀ row ∈ data, row.getLastD 0 = w.headD 0 + npDot row.dropLast w.tail := by
  unfold npMean
  rw [List.length_map]
  have hlen : ((data.length : ℚ)) ≠ 0 := by
    have : 0 < data.length := hrows
    positivity
  rw [div_eq_zero_iff]
  have hnn : ∀ x ∈ data.map (fun row =>
      (row.getLastD 0 - (w.headD 0 + npDot row.dropLast w.tail)) ^ 2), 0 ≤ x := by
    intro x hx
    obtain ⟨row, -, rfl⟩ := List.mem_map.mp hx
    exact sq_nonneg _
  constructor
  · rintro (hs | hbad)
    · intro row hrow
      have hz := (sum_eq_zero_iff_of_nonneg _ hnn).mp hs
        ((row.getLastD 0 - (w.headD 0 + npDot row.dropLast w.tail)) ^ 2)
        (List.mem_map.mpr ⟨row, hrow, rfl⟩)
      have := pow_eq_zero_iff (n := 2) (by omega) |>.mp hz
      linarith [sub_eq_zero.mp this]
    · exact absurd hbad hlen
  · intro hfit
    left
    apply (sum_eq_zero_iff_of_nonneg _ hnn).mpr
    intro x hx
    obtain ⟨row, hrow, rfl⟩ := List.mem_map.mp hx
    have := hfit row hrow
    have hz : row.getLastD 0 - (w.headD 0 + npDot row.dropLast w.tail) = 0 := by linarith
    rw [hz]
    ring

/-- C9: for every dataset with at least one row and every population,
`fitness_function` returns one value per individual, every value is
nonnegative, and the i-th individual's fitness is exactly 0 iff its
prediction `w[0] + dot(features_row, w[1:])` equals the row target on every
data row. -/
theorem fitness_function_spec (data population : Matrix2) (hrows : 1 ≤ data.length) :
    (fitness_function data population).length = population.length
    ∧ (∀ f ∈ fitness_function data population, 0 ≤ f)
    ∧ ∀ i < population.length,
        ((fitness_function data population).getD i 0 = 0 ↔
          ∀ row ∈ data, row.getLastD 0
            = (population.getD i []).headD 0
              + npDot row.dropLast (population.getD i []).tail) := by
  refine ⟨by simp [fitness_function], ?_, ?_⟩
  · intro f hf
    obtain ⟨w, -, rfl⟩ := List.mem_map.mp hf
    exact individual_fitness_nonneg data w
  · intro i hi
    unfold fitness_function
    rw [getD_map_of_lt _ population i hi 0 []]
    exact individual_fitness_zero_iff data hrows (population.getD i [])

/-- C9 witness: on the dataset `[[0, 0]]` the singleton population `[[0, 0]]`
has exactly one fitness value, it is nonnegative, and it is zero because the
prediction matches the target on the single row. -/
theorem fitness_function_spec_witness :
    1 ≤ dataZ.length
    ∧ (fitness_function dataZ [[0, 0]]).length = 1
    ∧ (∀ f ∈ fitness_function dataZ [[0, 0]], 0 ≤ f)
    ∧ ((fitness_function dataZ [[0, 0]]).getD 0 0 = 0 ↔
        ∀ row ∈ dataZ, row.getLastD 0
          = (([[0, 0]] : Matrix2).getD 0 []).headD 0
            + npDot row.dropLast (([[0, 0]] : Matrix2).getD 0 []).tail) := by
  have h := fitness_function_spec dataZ [[0, 0]] (by decide)
  exact ⟨by decide, h.1, h.2.1, h.2.2 0 (by decide)⟩

/-- C4: `run_experiment` is deterministic across calls: its first action
seeds the global RNG, so its outcome does not depend on the ambient RNG
state `s1`/`s2` left behind by anything that ran before — two calls with
identical arguments produce records with identical `best_fitness` and
identical `calculate_hash()` (for every float rendering `fs`). -/
theorem runExperiment_two_run_deterministic {S : Type} (env : Env) (m : RNGModel S)
    (dataset_filename : String) (seed : Int) (individual_count iterations : ℕ)
    (sel : SelectionOp) (mutOp : MutationOp) (cross : CrossoverOp)
    (crossover_probability mutation_probability : ℚ) (fs : ℚ → String) (s1 s2 : S) :
    (runExperiment env m dataset_filename seed individual_count iterations sel mutOp cross
        crossover_probability mutation_probability s1).map (fun r => r.best_fitness)
      = (runExperiment env m dataset_filename seed individual_count iterations sel mutOp cross
          crossover_probability mutation_probability s2).map (fun r => r.best_fitness)
    ∧ (runExperiment env m dataset_filename seed individual_count iterations sel mutOp cross
        crossover_probability mutation_probability s1).map (fun r => r.calculate_hash fs)
      = (runExperiment env m dataset_filename seed individual_count iterations sel mutOp cross
          crossover_probability mutation_probability s2).map (fun r => r.calculate_hash fs) :=
  ⟨rfl, rfl⟩

/-- C10: in both tournament variants a tournament's winner is the member at
the first (lowest) position of the sampled member list attaining the minimal
fitness: `tournamentBest` (the `best = np.argmin(fitnesses[indexes])` of
both `_selection_tournament_replacement` and
`_selection_tournament_no_replacement`) is in bounds, the returned winner is
the member at that position, that member's fitness is the minimum of the
tournament, and every strictly earlier member has strictly larger fitness —
so among tied members the lowest index wins, deterministically given the RNG
stream. -/
theorem tournament_tiebreak_lowest_index (population : Matrix2) (fitnesses : List ℚ)
    (indexes : List ℕ) (hne : indexes ≠ []) :
    tournamentBest fitnesses indexes < indexes.length
    ∧ tournamentRound population fitnesses indexes
        = (indexes.map (fun ix => population.getD ix [])).getD
            (tournamentBest fitnesses indexes) []
    ∧ (∀ k < indexes.length,
        (indexes.map (fun ix => fitnesses.getD ix 0)).getD (tournamentBest fitnesses indexes) 0
          ≤ (indexes.map (fun ix => fitnesses.getD ix 0)).getD k 0)
    ∧ ∀ k < tournamentBest fitnesses indexes,
        (indexes.map (fun ix => fitnesses.getD ix 0)).getD (tournamentBest fitnesses indexes) 0
          < (indexes.map (fun ix => fitnesses.getD ix 0)).getD k 0 := by
  have hne2 : indexes.map (fun ix => fitnesses.getD ix 0) ≠ [] := by
    simpa using hne
  have hlen : (indexes.map (fun ix => fitnesses.getD ix 0)).length = indexes.length :=
    List.length_map _ _
  refine ⟨?_, rfl, ?_, ?_⟩
  · have := npArgmin_lt_length _ hne2
    rw [hlen] at this
    exact this
  · intro k hk
    exact npArgmin_min _ k (by rw [hlen]; exact hk)
  · intro k hk
    exact npArgmin_first _ k hk

/-- C10 witness: in a tournament whose two sampled members (population
indices 1 and 2) tie on the minimal fitness, the winner is the member at
position 0 of the sample — the lowest tied index. -/
theorem tournament_tiebreak_lowest_index_witness :
    ([1, 2] : List ℕ) ≠ []
    ∧ tournamentBest [5, 1, 1] [1, 2] < 2
    ∧ tournamentRound [[9, 9], [7, 7], [8, 8]] [5, 1, 1] [1, 2] = [7, 7]
    ∧ (∀ k < tournamentBest [5, 1, 1] [1, 2],
        (([1, 2] : List ℕ).map (fun ix => ([5, 1, 1] : List ℚ).getD ix 0)).getD
            (tournamentBest [5, 1, 1] [1, 2]) 0
          < (([1, 2] : List ℕ).map (fun ix => ([5, 1, 1] : List ℚ).getD ix 0)).getD k 0) := by
  have h := tournament_tiebreak_lowest_index [[9, 9], [7, 7], [8, 8]] [5, 1, 1] [1, 2]
    (by decide)
  refine ⟨by decide, ?_, ?_, h.2.2.2⟩
  · simpa using h.1
  · rw [h.2.1]
    decide

/-- C8: `calculate_hash` depends only on the identity fields, not on the
plot artifact: two records agreeing on every field except `plot` hash
identically, and the hash is the SHA-256 hex digest of the UTF-8 bytes of
the comma-joined string representations of dataset, seed, individual_count,
iterations, crossover_probability, mutation_probability, the three operator
names, best_fitness and the best_individual string, in that order (for every
float rendering `fs`). -/
theorem calculate_hash_ignores_plot (fs : ℚ → String) (r1 r2 : Result)
    (h1 : r1.dataset = r2.dataset) (h2 : r1.seed = r2.seed)
    (h3 : r1.individual_count = r2.individual_count) (h4 : r1.iterations = r2.iterations)
    (h5 : r1.crossover_probability = r2.crossover_probability)
    (h6 : r1.mutation_probability = r2.mutation_probability)
    (h7 : r1.progenitor_selection_function = r2.progenitor_selection_function)
    (h8 : r1.crossover_function = r2.crossover_function)
    (h9 : r1.mutation_function = r2.mutation_function)
    (h10 : r1.best_fitness = r2.best_fitness)
    (h11 : r1.best_individual = r2.best_individual) :
    r1.calculate_hash fs = r2.calculate_hash fs
    ∧ r1.calculate_hash fs = sha256hex (String.intercalate ","
        [r1.dataset, toString r1.seed, toString r1.individual_count, toString r1.iterations,
         fs r1.crossover_probability, fs r1.mutation_probability,
         r1.progenitor_selection_function.name, r1.crossover_function.name,
         r1.mutation_function.name, fs r1.best_fitness, r1.best_individual]) := by
  constructor
  · simp only [Result.calculate_hash, Result.to_list, h1, h2, h3, h4, h5, h6, h7, h8, h9,
      h10, h11]
  · rfl

/-- C8 witness: two concrete records that differ only in their plot bytes
produce the same hash, and the hash of the first is the digest of its
comma-joined identity fields. -/
theorem calculate_hash_ignores_plot_witness :
    Result.calculate_hash
        ⟨"airfoil.dat", 1, 20, 50, 4 / 5, 1 / 10, .roulette, .single_point, .uniform, 0,
          "[0.,2.]", []⟩ (fun q => toString q.num)
      = Result.calculate_hash
        ⟨"airfoil.dat", 1, 20, 50, 4 / 5, 1 / 10, .roulette, .single_point, .uniform, 0,
          "[0.,2.]", [1, 2, 3]⟩ (fun q => toString q.num)
    ∧ Result.calculate_hash
        ⟨"airfoil.dat", 1, 20, 50, 4 / 5, 1 / 10, .roulette, .single_point, .uniform, 0,
          "[0.,2.]", []⟩ (fun q => toString q.num)
      = sha256hex (String.intercalate ","
          ["airfoil.dat", toString (1 : Int), toString (20 : ℕ), toString (50 : ℕ),
           (fun (q : ℚ) => toString q.num) (4 / 5), (fun (q : ℚ) => toString q.num) (1 / 10),
           SelectionOp.name .roulette, CrossoverOp.name .single_point,
           MutationOp.name .uniform, (fun (q : ℚ) => toString q.num) 0, "[0.,2.]"]) := by
  have h := calculate_hash_ignores_plot (fun q => toString q.num)
    ⟨"airfoil.dat", 1, 20, 50, 4 / 5, 1 / 10, .roulette, .single_point, .uniform, 0,
      "[0.,2.]", []⟩
    ⟨"airfoil.dat", 1, 20, 50, 4 / 5, 1 / 10, .roulette, .single_point, .uniform, 0,
      "[0.,2.]", [1, 2, 3]⟩
    rfl rfl rfl rfl rfl rfl rfl rfl rfl rfl rfl
  exact ⟨h.1, h.2⟩

/-- The all-zero stream is a valid RNG model. -/
theorem rngZero_valid : RNGValid rngZero :=
  streamModel_valid _ _ (fun _ => le_refl 0) (fun _ => by norm_num)

/-- The demonstration-run stream is a valid RNG model. -/
theorem rngRun_valid : RNGValid rngRun := by
  apply streamModel_valid
  · intro k
    unfold qsRun
    split <;> norm_num
  · intro k
    unfold qsRun
    split <;> norm_num

/-- The duplicate-winner stream is a valid RNG model. -/
theorem rngDup_valid : RNGValid rngDup :=
  streamModel_valid _ _ (fun _ => le_refl 0) (fun _ => by norm_num)

/-- With probability 0 the single-point pair loop copies its input (the
drawn probability is in `[0, 1)`, never below 0). -/
theorem singlePointGo_zero {S : Type} (m : RNGModel S) (hv : RNGValid m) (cols : ℕ) :
    ∀ (l : Matrix2) (s : S), (singlePointGo m cols l 0 s).1 = l := by
  intro l
  induction l using list_pair_induction with
  | h0 => intro s; rfl
  | h1 a => intro s; rfl
  | h2 a b t ih =>
    intro s
    simp only [singlePointGo]
    rw [if_neg (not_lt.mpr (hv.rand_nonneg s))]
    simp [ih]

/-- With probability 0 the two-point pair loop succeeds and copies its
input. -/
theorem twoPointsGo_zero {S : Type} (m : RNGModel S) (hv : RNGValid m) (cols : ℕ) :
    ∀ (l : Matrix2) (s : S), ∃ s', twoPointsGo m cols l 0 s = .ok (l, s')
  | [], s => ⟨s, rfl⟩
  | [a], s => ⟨(m.rand s).2, by
      simp only [twoPointsGo]
      rw [if_neg (not_lt.mpr (hv.rand_nonneg s))]⟩
  | a :: b :: t, s => by
    obtain ⟨s', hs⟩ := twoPointsGo_zero m hv cols t (m.rand s).2
    refine ⟨s', ?_⟩
    simp only [twoPointsGo]
    rw [if_neg (not_lt.mpr (hv.rand_nonneg s)), hs]

/-- Every entry of the `< 0` mask over a matrix of nonnegative entries is
`false`. -/
theorem mask_getD_false (M : Matrix2) (hM : ∀ i j, 0 ≤ (M.getD i []).getD j 0) (i j : ℕ) :
    ((M.map (fun r => r.map (fun d => decide (d < (0 : ℚ))))).getD i []).getD j false
      = false := by
  by_cases hi : i < M.length
  · rw [getD_map_of_lt _ M i hi [] []]
    by_cases hj : j < (M.getD i []).length
    · rw [getD_map_of_lt _ _ j hj false 0]
      simp only [decide_eq_false_iff_not, not_lt]
      exact hM i j
    · rw [List.getD_eq_default _ _ (by simpa using not_lt.mp hj)]
  · have h2 : (M.map (fun r => r.map (fun d => decide (d < (0 : ℚ))))).getD i [] = [] :=
      List.getD_eq_default _ _ (by simpa using not_lt.mp hi)
    rw [h2]
    rfl

/-- With probability 0 uniform mutation is the identity. -/
theorem mutation_uniform_zero {S : Type} (m : RNGModel S) (hv : RNGValid m)
    (pop : Matrix2) (s : S) : (mutation_uniform m pop 0 s).1 = pop := by
  simp only [mutation_uniform]
  apply mapIdx_id_of
  intro i row
  apply mapIdx_id_of
  intro j x
  exact if_neg (not_lt.mpr (npRandMatrix_getD_nonneg m hv _ _ _ i j))

/-- With probability 0 non-uniform mutation is the identity. -/
theorem mutation_non_uniform_zero {S : Type} (m : RNGModel S) (hv : RNGValid m)
    (pop : Matrix2) (s : S) : (mutation_non_uniform m pop 0 s).1 = pop := by
  simp only [mutation_non_uniform]
  apply mapIdx_id_of
  intro i row
  apply mapIdx_id_of
  intro j x
  rw [mask_getD_false _ (fun i2 j2 => npRandMatrix_getD_nonneg m hv _ _ _ i2 j2) i j]
  simp

/-- C7: with probability 0 every crossover operator (single-point,
two-point) and every mutation operator (uniform, non-uniform) returns its
input population unchanged (two-point crossover, whose source can raise on
an odd row count, succeeds and returns its input). -/
theorem operators_zero_probability_noop {S : Type} (m : RNGModel S) (hv : RNGValid m)
    (population : Matrix2) (s1 s2 s3 s4 : S) :
    (crossover_single_point m population 0 s1).1 = population
    ∧ (crossover_two_points m population 0 s2).map Prod.fst = .ok population
    ∧ (mutation_uniform m population 0 s3).1 = population
    ∧ (mutation_non_uniform m population 0 s4).1 = population := by
  refine ⟨singlePointGo_zero m hv _ population s1, ?_,
    mutation_uniform_zero m hv population s3, mutation_non_uniform_zero m hv population s4⟩
  obtain ⟨s', hs⟩ := twoPointsGo_zero m hv (population.headD []).length population s2
  rw [crossover_two_points, hs]
  rfl

/-- C7 witness: on a concrete three-row population (odd row count included
on purpose) and the all-zero stream, all four operators at probability 0
return the population unchanged. -/
theorem operators_zero_probability_noop_witness :
    (crossover_single_point rngZero [[1, 2], [3, 4], [5, 6]] 0 0).1 = [[1, 2], [3, 4], [5, 6]]
    ∧ (crossover_two_points rngZero [[1, 2], [3, 4], [5, 6]] 0 1).map Prod.fst
        = .ok [[1, 2], [3, 4], [5, 6]]
    ∧ (mutation_uniform rngZero [[1, 2], [3, 4], [5, 6]] 0 2).1 = [[1, 2], [3, 4], [5, 6]]
    ∧ (mutation_non_uniform rngZero [[1, 2], [3, 4], [5, 6]] 0 3).1
        = [[1, 2], [3, 4], [5, 6]] :=
  operators_zero_probability_noop rngZero rngZero_valid [[1, 2], [3, 4], [5, 6]] 0 1 2 3

/-- With probability 1 every pair is crossed by the single-point loop and
each crossed pair preserves its combined multiset of gene values. -/
theorem singlePointGo_one_pairs {S : Type} (m : RNGModel S) (hv : RNGValid m) (cols : ℕ) :
    ∀ (l : Matrix2) (s : S), ∀ i, 2 * i + 1 < l.length →
      (((singlePointGo m cols l 1 s).1.getD (2 * i) [] : List ℚ) : Multiset ℚ)
          + ((singlePointGo m cols l 1 s).1.getD (2 * i + 1) [] : List ℚ)
        = ((l.getD (2 * i) [] : List ℚ) : Multiset ℚ) + (l.getD (2 * i + 1) [] : List ℚ) := by
  intro l
  induction l using list_pair_induction with
  | h0 =>
    intro s i hi
    simp at hi
  | h1 a =>
    intro s i hi
    simp only [List.length_singleton] at hi
    omega
  | h2 a b t ih =>
    intro s i hi
    simp only [singlePointGo]
    rw [if_pos (hv.rand_lt_one s)]
    cases i with
    | zero =>
      simp only [Nat.mul_zero, Nat.zero_add, List.getD_cons_zero, List.getD_cons_succ]
      exact pair_conserve_single a b _
    | succ i' =>
      rw [show 2 * (i' + 1) = 2 * i' + 1 + 1 from by ring]
      simp only [List.getD_cons_succ]
      exact ih _ i' (by simp only [List.length_cons] at hi; omega)

/-- With probability 1 the two-point loop succeeds on an even row count,
every pair is crossed, and each crossed pair preserves its combined multiset
of gene values. -/
theorem twoPointsGo_one_pairs {S : Type} (m : RNGModel S) (hv : RNGValid m) (cols : ℕ)
    (hcols : 0 < cols) :
    ∀ (l : Matrix2) (s : S), l.length % 2 = 0 →
      ∃ out s', twoPointsGo m cols l 1 s = .ok (out, s')
        ∧ ∀ i, 2 * i + 1 < l.length →
            ((out.getD (2 * i) [] : List ℚ) : Multiset ℚ) + (out.getD (2 * i + 1) [] : List ℚ)
              = ((l.getD (2 * i) [] : List ℚ) : Multiset ℚ)
                + (l.getD (2 * i + 1) [] : List ℚ) := by
  intro l
  induction l using list_pair_induction with
  | h0 =>
    intro s _
    exact ⟨[], s, rfl, by intro i hi; simp at hi⟩
  | h1 a =>
    intro s heven
    simp only [List.length_singleton] at heven
    omega
  | h2 a b t ih =>
    intro s heven
    have hevent : t.length % 2 = 0 := by
      simp only [List.length_cons] at heven
      omega
    have hc1 : (m.randint 0 cols (m.rand s).2).1 < cols :=
      hv.randint_lt 0 cols (m.rand s).2 hcols
    have hc12 : (m.randint 0 cols (m.rand s).2).1
        ≤ (m.randint (m.randint 0 cols (m.rand s).2).1 cols (m.randint 0 cols (m.rand s).2).2).1 :=
      hv.randint_le _ cols _ hc1
    obtain ⟨out', s', hout, hpairs⟩ :=
      ih (m.randint (m.randint 0 cols (m.rand s).2).1 cols (m.randint 0 cols (m.rand s).2).2).2
        hevent
    have hstep : ∃ ch1 ch2, twoPointsGo m cols (a :: b :: t) 1 s = .ok (ch1 :: ch2 :: out', s')
        ∧ ((ch1 : Multiset ℚ) + (ch2 : Multiset ℚ)
            = (a : Multiset ℚ) + (b : Multiset ℚ)) := by
      refine ⟨a.take (m.randint 0 cols (m.rand s).2).1 ++
          ((b.drop (m.randint 0 cols (m.rand s).2).1).take
            ((m.randint (m.randint 0 cols (m.rand s).2).1 cols
                (m.randint 0 cols (m.rand s).2).2).1 - (m.randint 0 cols (m.rand s).2).1)
          ++ a.drop (m.randint (m.randint 0 cols (m.rand s).2).1 cols
              (m.randint 0 cols (m.rand s).2).2).1),
        b.take (m.randint 0 cols (m.rand s).2).1 ++
          ((a.drop (m.randint 0 cols (m.rand s).2).1).take
            ((m.randint (m.randint 0 cols (m.rand s).2).1 cols
                (m.randint 0 cols (m.rand s).2).2).1 - (m.randint 0 cols (m.rand s).2).1)
          ++ b.drop (m.randint (m.randint 0 cols (m.rand s).2).1 cols
              (m.randint 0 cols (m.rand s).2).2).1), ?_, ?_⟩
      · simp only [twoPointsGo]
        rw [if_pos (hv.rand_lt_one s), hout]
      · exact pair_conserve_two a b _ _ hc12
    obtain ⟨ch1, ch2, hstep2, hcons⟩ := hstep
    refine ⟨ch1 :: ch2 :: out', s', hstep2, ?_⟩
    intro i hi
    cases i with
    | zero => simpa using hcons
    | succ i' =>
      rw [show 2 * (i' + 1) = 2 * i' + 1 + 1 from by ring]
      simp only [List.getD_cons_succ]
      exact hpairs i' (by simp only [List.length_cons] at hi; omega)

/-- C6: with `probability = 1`, an even progenitor count and more than one
gene per individual, both single-point and two-point crossover produce, for
each consecutive pair `(2i, 2i+1)`, two children whose combined multiset of
gene values equals the combined multiset of the two progenitors — gene
values are only relocated within a pair, never created or destroyed. -/
theorem crossover_conserves_multiset {S : Type} (m : RNGModel S) (hv : RNGValid m)
    (progenitors : Matrix2) (s1 s2 : S)
    (heven : progenitors.length % 2 = 0)
    (hrect : ∀ row ∈ progenitors, row.length = (progenitors.headD []).length)
    (hgenes : 1 < (progenitors.headD []).length) :
    (∀ i, 2 * i + 1 < progenitors.length →
      (((crossover_single_point m progenitors 1 s1).1.getD (2 * i) [] : List ℚ) : Multiset ℚ)
          + ((crossover_single_point m progenitors 1 s1).1.getD (2 * i + 1) [] : List ℚ)
        = ((progenitors.getD (2 * i) [] : List ℚ) : Multiset ℚ)
          + (progenitors.getD (2 * i + 1) [] : List ℚ))
    ∧ ∃ out s', crossover_two_points m progenitors 1 s2 = .ok (out, s')
        ∧ ∀ i, 2 * i + 1 < progenitors.length →
            ((out.getD (2 * i) [] : List ℚ) : Multiset ℚ) + (out.getD (2 * i + 1) [] : List ℚ)
              = ((progenitors.getD (2 * i) [] : List ℚ) : Multiset ℚ)
                + (progenitors.getD (2 * i + 1) [] : List ℚ) := by
  constructor
  · intro i hi
    exact singlePointGo_one_pairs m hv _ progenitors s1 i hi
  · exact twoPointsGo_one_pairs m hv _ (by omega) progenitors s2 heven

/-- C6 witness: on the concrete pair `[[1, 2], [3, 4]]` with the all-zero
stream (cut points 0) both operators preserve the pair's multiset of gene
values. -/
theorem crossover_conserves_multiset_witness :
    (([[1, 2], [3, 4]] : Matrix2).length % 2 = 0)
    ∧ ((((crossover_single_point rngZero [[1, 2], [3, 4]] 1 0).1.getD 0 [] : List ℚ) : Multiset ℚ)
          + ((crossover_single_point rngZero [[1, 2], [3, 4]] 1 0).1.getD 1 [] : List ℚ)
        = (([1, 2] : List ℚ) : Multiset ℚ) + (([3, 4] : List ℚ) : Multiset ℚ))
    ∧ ∃ out s', crossover_two_points rngZero [[1, 2], [3, 4]] 1 0 = .ok (out, s')
        ∧ ((out.getD 0 [] : List ℚ) : Multiset ℚ) + (out.getD 1 [] : List ℚ)
            = (([1, 2] : List ℚ) : Multiset ℚ) + (([3, 4] : List ℚ) : Multiset ℚ) := by
  have h := crossover_conserves_multiset rngZero rngZero_valid [[1, 2], [3, 4]] 0 0
    (by decide) (by decide) (by decide)
  refine ⟨by decide, ?_, ?_⟩
  · have := h.1 0 (by decide)
    simpa using this
  · obtain ⟨out, s', hout, hpairs⟩ := h.2
    exact ⟨out, s', hout, by simpa using hpairs 0 (by decide)⟩

/-- C5: on a population whose fitnesses are all strictly positive, roulette
selection with `total_individuals ≤ population size` succeeds and returns
exactly `total_individuals` rows taken at pairwise-distinct in-range source
indices — the indices drawn (without replacement) by the `choice` primitive
from the normalized `1/fitness` distribution — while
`total_individuals > population size` makes the call fail with the sampling
error. -/
theorem selection_roulette_spec {S : Type} (m : RNGModel S) (hv : RNGValid m)
    (data population : Matrix2) (individuals k_group : ℕ) (s : S)
    (hpos : ∀ f ∈ fitness_function data population, 0 < f) :
    (individuals ≤ population.length →
      ∃ idxs s',
        selection_roulette m data population individuals k_group s
            = .ok (idxs.map (fun i => population.getD i []), s')
        ∧ idxs.Nodup ∧ idxs.length = individuals ∧ (∀ i ∈ idxs, i < population.length)
        ∧ idxs = (m.choice (List.range population.length) individuals
            (some (((fitness_function data population).map (fun f => 1 / f)).map
              (fun f => f / ((fitness_function data population).map (fun f => 1 / f)).sum)))
            s).1)
    ∧ (population.length < individuals →
        selection_roulette m data population individuals k_group s
          = .error .samplingError) := by
  constructor
  · intro hle
    refine ⟨(m.choice (List.range population.length) individuals
        (some (((fitness_function data population).map (fun f => 1 / f)).map
          (fun f => f / ((fitness_function data population).map (fun f => 1 / f)).sum))) s).1,
      (m.choice (List.range population.length) individuals
        (some (((fitness_function data population).map (fun f => 1 / f)).map
          (fun f => f / ((fitness_function data population).map (fun f => 1 / f)).sum))) s).2,
      ?_, ?_, ?_, ?_, rfl⟩
    · simp only [selection_roulette, npChoice]
      rw [if_pos (by simpa using hle)]
    · exact hv.choice_nodup _ _ _ _ (List.nodup_range _)
    · exact hv.choice_length _ _ _ _ (by simpa using hle)
    · intro i hi
      have := hv.choice_mem _ _ _ _ i hi
      simpa using this
  · intro hgt
    simp only [selection_roulette, npChoice]
    rw [if_neg (by simp only [List.length_range]; omega)]

/-- C5 witness: over the dataset `[[0, 0]]` the population
`[[1, 0], [2, 0]]` has fitnesses `[1, 4]` (strictly positive); asking for 1
individual succeeds with one distinct in-range index, and asking for 3
individuals fails with the sampling error. -/
theorem selection_roulette_spec_witness :
    (∀ f ∈ fitness_function dataZ [[1, 0], [2, 0]], 0 < f)
    ∧ (∃ idxs s',
        selection_roulette rngZero dataZ [[1, 0], [2, 0]] 1 1 0
            = .ok (idxs.map (fun i => ([[1, 0], [2, 0]] : Matrix2).getD i []), s')
        ∧ idxs.Nodup ∧ idxs.length = 1
        ∧ (∀ i ∈ idxs, i < ([[1, 0], [2, 0]] : Matrix2).length)
        ∧ idxs = (rngZero.choice (List.range ([[1, 0], [2, 0]] : Matrix2).length) 1
            (some (((fitness_function dataZ [[1, 0], [2, 0]]).map (fun f => 1 / f)).map
              (fun f => f / ((fitness_function dataZ [[1, 0], [2, 0]]).map
                (fun f => 1 / f)).sum))) 0).1)
    ∧ selection_roulette rngZero dataZ [[1, 0], [2, 0]] 3 1 0 = .error .samplingError := by
  have hfit : fitness_function dataZ [[1, 0], [2, 0]] = [1, 4] := by
    norm_num [fitness_function, dataZ, npMean, npDot]
  have hpos : ∀ f ∈ fitness_function dataZ [[1, 0], [2, 0]], 0 < f := by
    rw [hfit]
    norm_num
  have h1 := selection_roulette_spec rngZero rngZero_valid dataZ [[1, 0], [2, 0]] 1 1 0 hpos
  have h3 := selection_roulette_spec rngZero rngZero_valid dataZ [[1, 0], [2, 0]] 3 1 0 hpos
  exact ⟨hpos, h1.1 (by decide), h3.2 (by decide)⟩

/-- C2 (failing run): over the dataset `[[0, 0]]` the population
`[[0, 0], [1, 0], [2, 0]]` has pairwise-distinct rows with fitnesses
`[0, 1, 4]`; asking tournament-without-replacement for 2 winners with group
size 2 on the stream that samples pool positions `[1, 2]` first returns the
row of source individual 1 twice.  The first tournament's winner is
individual 1 (fitness 1 beats fitness 4), but
`available = np.delete(available, best)` removes the pool entry at the
winner's position *within the sampled indexes* (position 0, pool entry 0),
so individual 1 stays available and wins again. -/
theorem tournament_no_replacement_duplicate_winner :
    fitness_function dataZ popDup = [0, 1, 4]
    ∧ popDup.Nodup
    ∧ selection_tournament_no_replacement rngDup dataZ popDup 2 2 0
        = .ok ([[1, 0], [1, 0]], 2)
    ∧ popDup.getD 1 [] = [1, 0] := by
  refine ⟨?_, by decide, ?_, by decide⟩
  · norm_num [fitness_function, dataZ, popDup, npMean, npDot]
  · norm_num [selection_tournament_no_replacement, tournNoReplGo, npChoice, tournamentRound,
      tournamentBest, npArgmin, fitness_function, npMean, npDot, dataZ, popDup, rngDup,
      streamModel, List.rotate, List.range_succ, List.range_zero]

/-- C3 counterexample: with `individual_count = 2` (even) and one iteration,
the population built in step 4 — here the final population of a one-
iteration loop — has 4 rows, not `individual_count = 2`: the selection call
receives `individual_count` (not `individual_count // 2`) as the number of
progenitors to produce, so progenitors and children hold
`individual_count` rows each. -/
theorem population_size_counterexample :
    (create_population rngZero dataZ 2 0).1 = [[0, 0], [0, 0]]
    ∧ gaLoop rngZero dataZ .tournament_with_replacement .single_point .uniform 0 0 2 1
        [[0, 0], [0, 0]] 4 = .ok ([[0, 0], [0, 0], [0, 0], [0, 0]], [0], [0], 15)
    ∧ ([[0, 0], [0, 0], [0, 0], [0, 0]] : Matrix2).length ≠ 2 := by
  refine ⟨?_, ?_, by decide⟩
  · norm_num [create_population, npRandMatrix, npRandList, dataZ, rngZero, streamModel,
      List.range_succ, List.range_zero]
  · norm_num [gaLoop, gaStep, SelectionOp.apply, selection_tournament_replacement,
      tournReplGo, npChoice, tournamentBest, tournamentRound, npArgmin, CrossoverOp.apply,
      crossover_single_point, singlePointGo, MutationOp.apply, mutation_uniform,
      npRandMatrix, npRandList, fitness_function, npMean, npDot, npMin, npMean, dataZ,
      rngZero, streamModel, List.rotate, List.range_succ, List.range_zero]

/-- C3 amended: for every even `individual_count ≥ 2`, the population built
in step 4 of each iteration of the `run_experiment` loop has exactly
`2 * individual_count` rows (not `individual_count`): each successful
`gaStep` produces a `2 * individual_count`-row population, and a successful
loop of at least one iteration ends with a `2 * individual_count`-row
population. -/
theorem population_size_doubles {S : Type} (m : RNGModel S) (hv : RNGValid m)
    (data : Matrix2) (sel : SelectionOp) (cross : CrossoverOp) (mutOp : MutationOp)
    (cp mp : ℚ) (individual_count : ℕ) (hic : 2 ≤ individual_count)
    (heven : individual_count % 2 = 0) :
    (∀ (population : Matrix2) (s : S) (out : Matrix2) (b a : ℚ) (s' : S),
      gaStep m data sel cross mutOp cp mp individual_count population s
          = .ok (out, b, a, s') →
      out.length = 2 * individual_count)
    ∧ ∀ (k : ℕ), 1 ≤ k →
        ∀ (population : Matrix2) (s : S) (popF : Matrix2) (bests avgs : List ℚ) (s' : S),
          gaLoop m data sel cross mutOp cp mp individual_count k population s
              = .ok (popF, bests, avgs, s') →
          popF.length = 2 * individual_count :=
  ⟨fun population s out b a s' h =>
      gaStep_length m hv data sel cross mutOp cp mp individual_count population s out b a s' h,
   fun k hk population s popF bests avgs s' h =>
      gaLoop_final_length m hv data sel cross mutOp cp mp individual_count k population s
        popF bests avgs s' hk h⟩

/-- C3 witness: on the all-zero stream with `individual_count = 2` one
concrete `gaStep` returns a 4-row population, and `4 = 2 * 2`. -/
theorem population_size_doubles_witness :
    (2 ≤ 2 ∧ 2 % 2 = 0)
    ∧ gaStep rngZero dataZ .tournament_with_replacement .single_point .uniform 0 0 2
        [[0, 0], [0, 0]] 4 = .ok ([[0, 0], [0, 0], [0, 0], [0, 0]], 0, 0, 15)
    ∧ ([[0, 0], [0, 0], [0, 0], [0, 0]] : Matrix2).length = 2 * 2 := by
  have hstep : gaStep rngZero dataZ .tournament_with_replacement .single_point .uniform 0 0 2
      [[0, 0], [0, 0]] 4 = .ok ([[0, 0], [0, 0], [0, 0], [0, 0]], 0, 0, 15) := by
    norm_num [gaStep, SelectionOp.apply, selection_tournament_replacement, tournReplGo,
      npChoice, tournamentBest, tournamentRound, npArgmin, CrossoverOp.apply,
      crossover_single_point, singlePointGo, MutationOp.apply, mutation_uniform,
      npRandMatrix, npRandList, fitness_function, npMean, npDot, npMin, dataZ,
      rngZero, streamModel, List.rotate, List.range_succ, List.range_zero]
  exact ⟨⟨le_refl 2, rfl⟩, hstep,
    (population_size_doubles rngZero rngZero_valid dataZ .tournament_with_replacement
      .single_point .uniform 0 0 2 (le_refl 2) rfl).1 [[0, 0], [0, 0]] 4
      [[0, 0], [0, 0], [0, 0], [0, 0]] 0 0 15 hstep⟩

/-- C1 amended: for every run with `iterations ≥ 1` whose loop succeeds, the
emitted record's `best_individual` is (the string rendering of) the argmin
individual of the final fitness re-evaluation of the final population — but
`best_fitness` is `np.min(best_fitnesses)`, the minimum over *all*
iterations of the per-iteration minimum population fitness (an element of,
and a lower bound of, the recorded trace), which can be strictly below the
final best individual's fitness. -/
theorem runExperiment_best_fields {S : Type} (env : Env) (m : RNGModel S)
    (dataset_filename : String) (seed : Int) (individual_count iterations : ℕ)
    (sel : SelectionOp) (mutOp : MutationOp) (cross : CrossoverOp)
    (crossover_probability mutation_probability : ℚ) (s_ambient : S)
    (popF : Matrix2) (bests avgs : List ℚ) (sF : S)
    (hiter : 1 ≤ iterations)
    (hloop : gaLoop m (env.readDat dataset_filename) sel cross mutOp
        (round5 crossover_probability) (round5 mutation_probability) individual_count
        iterations
        (create_population m (env.readDat dataset_filename) individual_count
          (m.seedState seed)).1
        (create_population m (env.readDat dataset_filename) individual_count
          (m.seedState seed)).2
      = .ok (popF, bests, avgs, sF)) :
    ∃ r, runExperiment env m dataset_filename seed individual_count iterations sel mutOp cross
        crossover_probability mutation_probability s_ambient = .ok r
      ∧ r.best_individual = env.arr2string (popF.getD
          (npArgmin (fitness_function (env.readDat dataset_filename) popF)) [])
      ∧ r.best_fitness = npMin bests
      ∧ bests.length = iterations
      ∧ r.best_fitness ∈ bests
      ∧ ∀ b ∈ bests, r.best_fitness ≤ b := by
  have htr := gaLoop_trace_length m (env.readDat dataset_filename) sel cross mutOp
    (round5 crossover_probability) (round5 mutation_probability) individual_count iterations
    _ _ _ _ _ _ hloop
  have hne : bests ≠ [] := by
    intro hb
    rw [hb] at htr
    simp at htr
    omega
  refine ⟨{ dataset := dataset_filename
            seed := seed
            individual_count := individual_count
            iterations := iterations
            crossover_probability := round5 crossover_probability
            mutation_probability := round5 mutation_probability
            progenitor_selection_function := sel
            crossover_function := cross
            mutation_function := mutOp
            best_fitness := npMin bests
            best_individual := env.arr2string (popF.getD
              (npArgmin (fitness_function (env.readDat dataset_filename) popF)) [])
            plot := env.render bests avgs }, ?_, rfl, rfl, htr.1,
    npMin_mem bests hne, fun b hb => npMin_le bests b hb⟩
  simp only [runExperiment]
  rw [hloop]

/-- C1 witness: a one-iteration run on the all-zero stream: the loop ends
with the 4-row zero population, `best_individual` renders its argmin row and
`best_fitness` is the minimum of the one-element trace `[0]`. -/
theorem runExperiment_best_fields_witness :
    (1 ≤ 1)
    ∧ gaLoop rngZero (envZ.readDat "quake.dat") .tournament_with_replacement .single_point
        .uniform (round5 0) (round5 0) 2 1
        (create_population rngZero (envZ.readDat "quake.dat") 2 (rngZero.seedState 7)).1
        (create_population rngZero (envZ.readDat "quake.dat") 2 (rngZero.seedState 7)).2
      = .ok ([[0, 0], [0, 0], [0, 0], [0, 0]], [0], [0], 15)
    ∧ ∃ r, runExperiment envZ rngZero "quake.dat" 7 2 1 .tournament_with_replacement
          .uniform .single_point 0 0 99 = .ok r
        ∧ r.best_individual = envZ.arr2string
            (([[0, 0], [0, 0], [0, 0], [0, 0]] : Matrix2).getD
              (npArgmin (fitness_function (envZ.readDat "quake.dat")
                [[0, 0], [0, 0], [0, 0], [0, 0]])) [])
        ∧ r.best_fitness = npMin [0]
        ∧ ([(0 : ℚ)] : List ℚ).length = 1
        ∧ r.best_fitness ∈ ([0] : List ℚ)
        ∧ ∀ b ∈ ([0] : List ℚ), r.best_fitness ≤ b := by
  have hr0 : round5 0 = 0 := by norm_num [round5, roundHalfEven]
  have hread : envZ.readDat "quake.dat" = dataZ := rfl
  have hc1 : (create_population rngZero (envZ.readDat "quake.dat") 2
      (rngZero.seedState 7)).1 = [[0, 0], [0, 0]] := by
    norm_num [create_population, npRandMatrix, npRandList, dataZ, envZ, rngZero, streamModel,
      List.range_succ, List.range_zero]
  have hc2 : (create_population rngZero (envZ.readDat "quake.dat") 2
      (rngZero.seedState 7)).2 = 4 := by
    norm_num [create_population, npRandMatrix, npRandList, dataZ, envZ, rngZero, streamModel]
  have hloop : gaLoop rngZero (envZ.readDat "quake.dat") .tournament_with_replacement
      .single_point .uniform (round5 0) (round5 0) 2 1
      (create_population rngZero (envZ.readDat "quake.dat") 2 (rngZero.seedState 7)).1
      (create_population rngZero (envZ.readDat "quake.dat") 2 (rngZero.seedState 7)).2
      = .ok ([[0, 0], [0, 0], [0, 0], [0, 0]], [0], [0], 15) := by
    rw [hr0, hc1, hc2, hread]
    norm_num [gaLoop, gaStep, SelectionOp.apply, selection_tournament_replacement,
      tournReplGo, npChoice, tournamentBest, tournamentRound, npArgmin, CrossoverOp.apply,
      crossover_single_point, singlePointGo, MutationOp.apply, mutation_uniform,
      npRandMatrix, npRandList, fitness_function, npMean, npDot, npMin, dataZ,
      rngZero, streamModel, List.rotate, List.range_succ, List.range_zero]
  refine ⟨le_refl 1, hloop, ?_⟩
  obtain ⟨r, hr, h1, h2, -, h4, h5⟩ := runExperiment_best_fields envZ rngZero "quake.dat" 7
    2 1 .tournament_with_replacement .uniform .single_point 0 0 99
    [[0, 0], [0, 0], [0, 0], [0, 0]] [0] [0] 15 (le_refl 1) hloop
  exact ⟨r, hr, by rw [h1], h2, by decide, h4, h5⟩

/-- C1 counterexample: a two-iteration run in which iteration 0 still
contains two perfect individuals (per-iteration best fitness 0) while every
row of the final population has fitness `1/4`.  The emitted record has
`best_fitness = 0` — the minimum across iterations — which differs from the
fitness `1/4` of the best individual of the final re-evaluation, refuting
"best_fitness equals the fitness of that same best_individual in the final
evaluation". -/
theorem best_fitness_not_final_argmin_fitness :
    gaLoop rngRun dataZ .tournament_with_replacement .single_point .uniform 0 1 2 2
        [[0, 0], [0, 0]] 4
      = .ok ([[1 / 2, 1 / 2], [1 / 2, 1 / 2], [1 / 2, 1 / 2], [1 / 2, 1 / 2]],
          [0, 1 / 4], [1 / 8, 1 / 4], 26)
    ∧ (runExperiment envZ rngRun "quake.dat" 7 2 2 .tournament_with_replacement .uniform
        .single_point 0 1 99).map (fun r => r.best_fitness) = .ok 0
    ∧ (fitness_function dataZ
          [[1 / 2, 1 / 2], [1 / 2, 1 / 2], [1 / 2, 1 / 2], [1 / 2, 1 / 2]]).getD
        (npArgmin (fitness_function dataZ
          [[1 / 2, 1 / 2], [1 / 2, 1 / 2], [1 / 2, 1 / 2], [1 / 2, 1 / 2]])) 0 = 1 / 4
    ∧ (0 : ℚ) ≠ 1 / 4 := by
  have hr0 : round5 0 = 0 := by norm_num [round5, roundHalfEven]
  have hr1 : round5 1 = 1 := by norm_num [round5, roundHalfEven]
  have hread : envZ.readDat "quake.dat" = dataZ := rfl
  have hc1 : (create_population rngRun (envZ.readDat "quake.dat") 2
      (rngRun.seedState 7)).1 = [[0, 0], [0, 0]] := by
    norm_num [create_population, npRandMatrix, npRandList, dataZ, envZ, rngRun, qsRun,
      streamModel, List.range_succ, List.range_zero]
  have hc2 : (create_population rngRun (envZ.readDat "quake.dat") 2
      (rngRun.seedState 7)).2 = 4 := by
    norm_num [create_population, npRandMatrix, npRandList, dataZ, envZ, rngRun, streamModel]
  have hloop : gaLoop rngRun dataZ .tournament_with_replacement .single_point .uniform 0 1 2 2
      [[0, 0], [0, 0]] 4
      = .ok ([[1 / 2, 1 / 2], [1 / 2, 1 / 2], [1 / 2, 1 / 2], [1 / 2, 1 / 2]],
          [0, 1 / 4], [1 / 8, 1 / 4], 26) := by
    norm_num [gaLoop, gaStep, SelectionOp.apply, selection_tournament_replacement,
      tournReplGo, npChoice, tournamentBest, tournamentRound, npArgmin, CrossoverOp.apply,
      crossover_single_point, singlePointGo, MutationOp.apply, mutation_uniform,
      npRandMatrix, npRandList, fitness_function, npMean, npDot, npMin, dataZ,
      rngRun, qsRun, nsRun, streamModel, List.rotate, List.range_succ, List.range_zero]
  refine ⟨hloop, ?_, ?_, by norm_num⟩
  · simp only [runExperiment]
    rw [hr0, hr1, hc1, hc2, hread, hloop]
    simp only [Except.map]
    norm_num [npMin, min_def]
  · norm_num [fitness_function, npMean, npDot, dataZ, npArgmin]

set_option maxRecDepth 10000 in
/-- Sanity check of the SHA-256 model against the standard "abc" test
vector. -/
theorem sha256hex_abc :
    sha256hex "abc" = "ba7816bf8f01cfea414140de5dae2223b00361a396177a9cb410ff61f20015ad" := by
  rfl

set_option maxRecDepth 10000 in
/-- Sanity check of the SHA-256 model against the empty-message test
vector. -/
theorem sha256hex_empty :
    sha256hex "" = "e3b0c44298fc1c149afbf4c8996fb92427ae41e4649b934ca495991b7852b855" := by
  rfl
